import Mathlib

/-!
# periodically: a shallow embedding of `periodically.go`

The Go package keeps a `Manager` owning a slice of `*worker`, a shared
cancellable context, a `started` flag and the channel `allWorkersStopped`.
`Manager.Start` spawns one goroutine per worker (the loop of `worker.Start`)
and one coordinator goroutine (`wg.Wait(); close(allWorkersStopped)`).

The embedding is a labelled transition system:

* the calls `Every`, `Start`, `Stop` are state-passing functions on `State`
  (the process state: the `Manager` struct, the heap of `worker` objects, the
  wait-group counter and the spawned goroutines); calls are made one after
  another, each is one step, except `Stop`, which is split at its `select`;
* every goroutine is a program counter; `step` executes one labelled step
  of one goroutine or one call; the label carries every non-deterministic
  choice (which goroutine moves, the pick of a `select` with several ready
  cases, a tick of a ticker, the return of `fn`);
* a panic terminates the process: no step is enabled afterwards.
-/

namespace periodically

/-! ## Values -/

/-- Go `time.Duration`: a signed count of nanoseconds. -/
abbrev Duration := Int

/-- Identity of a registered `func(ctx context.Context)`; its body belongs to
the caller and is part of the environment. -/
abbrev FnId := Nat

/-- Go `error` values built by this package: `errors.New(text)` and
`fmt.Errorf("%s: %w", op, err)`. -/
inductive GoError where
  | errorsNew (text : String)
  | fmtErrorf (op : String) (wrapped : GoError)
deriving DecidableEq, Repr

/-- Line 13: `var ErrWorkersStoppedForcibly = errors.New(...)`. -/
def ErrWorkersStoppedForcibly : GoError :=
  GoError.errorsNew "workers were stopped forcibly"

/-- Line 14: `var ErrCallMethodEveryAfterStart = errors.New(...)`. -/
def ErrCallMethodEveryAfterStart : GoError :=
  GoError.errorsNew "unable to register a worker after calling <Start> method"

/-- Go `errors.Is`: `err` or an error in its `%w` chain equals `target`. -/
def errorsIs (err target : GoError) : Bool :=
  match err with
  | GoError.errorsNew text => decide (GoError.errorsNew text = target)
  | GoError.fmtErrorf op wrapped =>
      decide (GoError.fmtErrorf op wrapped = target) || errorsIs wrapped target

/-- Level of a record sent to the `slog` sink. -/
inductive LogLevel where
  | Info
  | Warn
deriving DecidableEq, Repr

/-- One record received by the logging sink. -/
structure LogRecord where
  level : LogLevel
  msg : String
deriving DecidableEq, Repr

/-- Go `select` over two cases: a case that is not ready cannot be chosen, the
statement blocks (`none`) when neither is ready, and when both are ready the
runtime chooses one pseudo-randomly (`pick`). `false` is the first case of the
statement, `true` the second. -/
def select2 (firstReady secondReady pick : Bool) : Option Bool :=
  match firstReady, secondReady with
  | true, true => some pick
  | true, false => some false
  | false, true => some true
  | false, false => none

/-! ## Data model -/

/-- Lines 16-20: `type worker struct`. -/
structure worker where
  fn : FnId
  interval : Duration
  prevOperationInProgress : Bool
deriving DecidableEq, Repr

/-- Lines 43-50: `type Manager struct`. `ctx`/`stop` are the cancellable
context of `NewManager`: `ctxDone` says whether `stop()` has been called.
`workers` holds pointers (addresses in the heap of `State`);
`allWorkersStopped` says whether the channel has been closed. -/
structure Manager where
  log : List LogRecord
  ctxDone : Bool
  started : Bool
  workers : List Nat
  allWorkersStopped : Bool
deriving DecidableEq, Repr

/-- Program points of the goroutine spawned by `worker.Start` (lines 24-40). -/
inductive FlowPc where
  /-- spawned, `time.NewTicker` (line 26) not yet executed -/
  | atNewTicker
  /-- blocked in or about to evaluate the `select` of line 29 -/
  | atSelect
  /-- a tick was received (line 32), `CompareAndSwap` (line 33) is next -/
  | atCAS
  /-- the call `w.fn(ctx)` (line 36) has begun and has not returned -/
  | inFn
  /-- the call of `fn` returned, `Store(false)` (line 37) is next -/
  | atStore
  /-- the `return` of line 31 executed, the deferred `ticker.Stop()` and
  `wg.Done()` have run -/
  | exited
deriving DecidableEq, Repr

/-- One goroutine spawned by `worker.Start`: the worker it was spawned for, its
program point, and whether a tick is buffered in its `ticker.C` (a channel of
capacity 1). -/
structure Flow where
  w : Nat
  pc : FlowPc
  tickerC : Bool
deriving DecidableEq, Repr

/-- Program points of the coordinator goroutine (lines 80-83). -/
inductive CoordPc where
  /-- at `wg.Wait()` (line 81) -/
  | atWait
  /-- after `wg.Wait()` returned, `close(m.allWorkersStopped)` (line 82) is next -/
  | atClose
  /-- the goroutine has returned -/
  | done
deriving DecidableEq, Repr

/-- The process state. `closes`, `skips`, `ticksReceived`, `invocations` are
history counters: executions of `close` (line 82), of `continue` (line 34), of
the receive of line 32 and of the call of line 36. `stopWaiting` counts the
`Stop` calls blocked in the `select` of line 100. -/
structure State where
  m : Manager
  heap : List worker
  wg : Int
  flows : List Flow
  coordinators : List CoordPc
  stopWaiting : Nat
  crashed : Bool
  closes : Nat
  skips : Nat
  ticksReceived : Nat
  invocations : Nat
deriving DecidableEq, Repr

/-! ## The calls -/

/-- Lines 52-66: `NewManager`. The logger is its sink; a nil logger is replaced
by `slog.Default()`, an empty sink here. -/
def NewManager (log : Option (List LogRecord)) : State :=
  { m := { log := log.getD [], ctxDone := false, started := false, workers := [],
           allWorkersStopped := false },
    heap := [], wg := 0, flows := [], coordinators := [], stopWaiting := 0,
    crashed := false, closes := 0, skips := 0, ticksReceived := 0, invocations := 0 }

/-- Append a record to the sink of `m.log`. -/
def State.logf (s : State) (level : LogLevel) (msg : String) : State :=
  { s with m := { s.m with log := s.m.log ++ [{ level := level, msg := msg }] } }

/-- Lines 111-125: `Manager.Every`. Returns the new state and the returned
error (`none` is `nil`). -/
def Manager.Every (s : State) (interval : Duration) (fn : FnId) : State × Option GoError :=
  if s.m.started then
    (s, some ErrCallMethodEveryAfterStart)
  else
    ({ s with
        heap := s.heap ++ [{ fn := fn, interval := interval, prevOperationInProgress := false }],
        m := { s.m with workers := s.m.workers ++ [s.heap.length] } },
     none)

/-- Lines 22-41: `worker.Start`, as seen by its caller: `wg.Add(1)` and the
`go` statement, which spawns the goroutine at its first program point. -/
def worker.Start (s : State) (w : Nat) : State :=
  { s with wg := s.wg + 1, flows := s.flows ++ [{ w := w, pc := FlowPc.atNewTicker, tickerC := false }] }

/-- Lines 68-87: `Manager.Start`. -/
def Manager.Start (s : State) : State :=
  if s.m.started then
    s
  else
    let s1 : State := { s with m := { s.m with started := true }, wg := 0 }
    let s2 : State := s1.m.workers.foldl worker.Start s1
    let s3 : State := { s2 with coordinators := s2.coordinators ++ [CoordPc.atWait] }
    s3.logf LogLevel.Info "periodically workers are running"

/-- Lines 89-98 of `Manager.Stop`: the part before the `select`. `some err` is
a return, `none` means the call goes on to the `select` of line 100. -/
def Manager.Stop_enter (s : State) : State × Option (Option GoError) :=
  if !s.m.started then
    (s.logf LogLevel.Warn "You can not call <Stop> method before <Start>", some none)
  else
    ({ s with m := { s.m with ctxDone := true } }, none)

/-- Lines 100-107 of `Manager.Stop`: the `select`, evaluated when the caller's
`ctx` is done or not (`ctxDone`). `none` means the call stays blocked. -/
def Manager.Stop_select (s : State) (ctxDone pick : Bool) : Option (State × Option GoError) :=
  match select2 s.m.allWorkersStopped ctxDone pick with
  | none => none
  | some false =>
      some (s.logf LogLevel.Info "all periodically workers stopped successfully", none)
  | some true =>
      some (s.logf LogLevel.Info "periodically workers stopped forcibly",
            some (GoError.fmtErrorf "periodically.Stop" ErrWorkersStoppedForcibly))

/-- Outcome of a `Stop` call run without interleaving: returned, or blocked. -/
inductive StopResult where
  | returned (err : Option GoError)
  | blocked
deriving DecidableEq, Repr

/-- Lines 89-109: `Manager.Stop`, the two parts in sequence with no other
goroutine moving in between. -/
def Manager.Stop (s : State) (ctxDone pick : Bool) : State × StopResult :=
  match Manager.Stop_enter s with
  | (s1, some err) => (s1, StopResult.returned err)
  | (s1, none) =>
      match Manager.Stop_select s1 ctxDone pick with
      | some (s2, err) => (s2, StopResult.returned err)
      | none => (s1, StopResult.blocked)

/-! ## The goroutines -/

/-- Go `sync.WaitGroup.Done`: decrements the counter and panics when it would
become negative. -/
def wgDone (s : State) : State :=
  if s.wg - 1 < 0 then { s with crashed := true } else { s with wg := s.wg - 1 }

/-- Replace the goroutine at position `i`. -/
def State.setFlow (s : State) (i : Nat) (f : Flow) : State :=
  { s with flows := s.flows.set i f }

/-- Line 26: `time.NewTicker(w.interval)`, which panics for a non-positive
duration. -/
def flowNewTicker (s : State) (i : Nat) (f : Flow) : Option State :=
  match s.heap[f.w]? with
  | none => none
  | some wk =>
      if wk.interval ≤ 0 then some { s with crashed := true }
      else some (s.setFlow i { f with pc := FlowPc.atSelect, tickerC := false })

/-- The runtime timer of a ticker fires: a non-blocking send on `ticker.C`, so
the tick is dropped when one is already buffered. Enabled while the ticker
exists and has not been stopped. -/
def flowTick (s : State) (i : Nat) (f : Flow) : Option State :=
  match f.pc with
  | FlowPc.atNewTicker => none
  | FlowPc.exited => none
  | _ => some (s.setFlow i { f with tickerC := true })

/-- Lines 29-32: the `select` of the loop. First case `<-ctx.Done()`: return
(deferred `ticker.Stop()`, `wg.Done()`); second case `<-ticker.C`. -/
def flowSelect (s : State) (i : Nat) (f : Flow) (pick : Bool) : Option State :=
  match select2 s.m.ctxDone f.tickerC pick with
  | none => none
  | some false => some (wgDone (s.setFlow i { f with pc := FlowPc.exited }))
  | some true =>
      some { s.setFlow i { f with pc := FlowPc.atCAS, tickerC := false } with
             ticksReceived := s.ticksReceived + 1 }

/-- Lines 33-36: `CompareAndSwap(false, true)`; on failure `continue`, on
success the call of `w.fn(ctx)` begins. -/
def flowCAS (s : State) (i : Nat) (f : Flow) : Option State :=
  match s.heap[f.w]? with
  | none => none
  | some wk =>
      if wk.prevOperationInProgress then
        some { s.setFlow i { f with pc := FlowPc.atSelect } with skips := s.skips + 1 }
      else
        some { s.setFlow i { f with pc := FlowPc.inFn } with
               heap := s.heap.set f.w { wk with prevOperationInProgress := true },
               invocations := s.invocations + 1 }

/-- Line 37: `w.prevOperationInProgress.Store(false)`, then back to the
`select`. -/
def flowStore (s : State) (i : Nat) (f : Flow) : Option State :=
  match s.heap[f.w]? with
  | none => none
  | some wk =>
      some { s.setFlow i { f with pc := FlowPc.atSelect } with
             heap := s.heap.set f.w { wk with prevOperationInProgress := false } }

/-- Labels of the transition system. -/
inductive Label where
  /-- a call of `Every(interval, fn)` -/
  | callEvery (interval : Duration) (fn : FnId)
  /-- a call of `Start()` -/
  | callStart
  /-- a call of `Stop(ctx)` runs up to its `select` -/
  | callStop
  /-- a blocked `Stop(ctx)` resolves its `select` -/
  | stopSelect (ctxDone pick : Bool)
  /-- goroutine `i` creates its ticker -/
  | newTicker (i : Nat)
  /-- the ticker of goroutine `i` fires -/
  | tick (i : Nat)
  /-- goroutine `i` resolves its `select` -/
  | loopSelect (i : Nat) (pick : Bool)
  /-- goroutine `i` executes `CompareAndSwap` and, on success, calls `fn` -/
  | cas (i : Nat)
  /-- the call of `fn` returns to goroutine `i` -/
  | fnReturn (i : Nat)
  /-- the call of `fn` panics in goroutine `i` -/
  | fnPanic (i : Nat)
  /-- goroutine `i` executes `Store(false)` -/
  | store (i : Nat)
  /-- the call `wg.Wait()` returns in coordinator `j` -/
  | wgWait (j : Nat)
  /-- coordinator `j` executes `close(m.allWorkersStopped)` -/
  | closeSignal (j : Nat)
deriving DecidableEq, Repr

/-- One step of goroutine `i` at program point `pc`. -/
def flowStep (s : State) (i : Nat) (pc : FlowPc) (k : State → Nat → Flow → Option State) :
    Option State :=
  match s.flows[i]? with
  | none => none
  | some f => if f.pc = pc then k s i f else none

/-- Lines 80-83, the coordinator: `wg.Wait()` returns only when the counter is
zero; `close` of a closed channel panics. -/
def coordStep (s : State) (j : Nat) (pc : CoordPc) : Option State :=
  match s.coordinators[j]? with
  | none => none
  | some c =>
      if c = pc then
        match pc with
        | CoordPc.atWait =>
            if s.wg = 0 then some { s with coordinators := s.coordinators.set j CoordPc.atClose }
            else none
        | CoordPc.atClose =>
            if s.m.allWorkersStopped then
              some { s with crashed := true, closes := s.closes + 1 }
            else
              some { s with m := { s.m with allWorkersStopped := true },
                            coordinators := s.coordinators.set j CoordPc.done,
                            closes := s.closes + 1 }
        | CoordPc.done => none
      else none

/-- The step function: `none` when the label is not enabled in `s`. -/
def step (s : State) (l : Label) : Option State :=
  if s.crashed then none
  else
    match l with
    | Label.callEvery interval fn => some (Manager.Every s interval fn).1
    | Label.callStart => some (Manager.Start s)
    | Label.callStop =>
        match Manager.Stop_enter s with
        | (s1, some _) => some s1
        | (s1, none) => some { s1 with stopWaiting := s1.stopWaiting + 1 }
    | Label.stopSelect ctxDone pick =>
        if s.stopWaiting = 0 then none
        else
          match Manager.Stop_select s ctxDone pick with
          | none => none
          | some (s1, _) => some { s1 with stopWaiting := s1.stopWaiting - 1 }
    | Label.newTicker i => flowStep s i FlowPc.atNewTicker flowNewTicker
    | Label.tick i =>
        match s.flows[i]? with
        | none => none
        | some f => flowTick s i f
    | Label.loopSelect i pick =>
        flowStep s i FlowPc.atSelect (fun s i f => flowSelect s i f pick)
    | Label.cas i => flowStep s i FlowPc.atCAS flowCAS
    | Label.fnReturn i =>
        flowStep s i FlowPc.inFn (fun s i f => some (s.setFlow i { f with pc := FlowPc.atStore }))
    | Label.fnPanic i =>
        flowStep s i FlowPc.inFn (fun s _ _ => some { s with crashed := true })
    | Label.store i => flowStep s i FlowPc.atStore flowStore
    | Label.wgWait j => coordStep s j CoordPc.atWait
    | Label.closeSignal j => coordStep s j CoordPc.atClose

/-- Run a sequence of labels; `none` when one of them is not enabled. -/
def run (s : State) : List Label → Option State
  | [] => some s
  | l :: ls =>
      match step s l with
      | none => none
      | some s1 => run s1 ls

/-- States of a Manager: reached from `NewManager` by some sequence of steps. -/
def Reachable (s : State) : Prop :=
  ∃ (log : Option (List LogRecord)) (ls : List Label), run (NewManager log) ls = some s

/-- Number of invocations of the `fn` of worker `p` that have begun and have
not returned. -/
def inFlight (s : State) (p : Nat) : Nat :=
  (s.flows.filter (fun f => decide (f.w = p) && decide (f.pc = FlowPc.inFn))).length

/-! ## Invariant of the reachable states -/

/-- The goroutine a worker is given at the start of its flow. -/
def spawned (w : Nat) : Flow := { w := w, pc := FlowPc.atNewTicker, tickerC := false }

/-- The goroutine has not returned: it still counts in the wait group. -/
def Flow.alive (f : Flow) : Bool := decide (f.pc ≠ FlowPc.exited)

/-- The goroutine has received a tick it has not yet acted on. -/
def Flow.holdsTick (f : Flow) : Bool := decide (f.pc = FlowPc.atCAS)

/-- The invariant of the reachable states. -/
structure Inv (s : State) : Prop where
  workers_range : s.m.workers = List.range s.heap.length
  flows_w : s.flows.map Flow.w = if s.m.started then s.m.workers else []
  flag_pc : ∀ (i : Nat) (f : Flow) (wk : worker), s.flows[i]? = some f → s.heap[f.w]? = some wk →
      wk.prevOperationInProgress = true → f.pc = FlowPc.inFn ∨ f.pc = FlowPc.atStore
  fresh : s.m.started = false →
      (∀ wk ∈ s.heap, wk.prevOperationInProgress = false) ∧ s.m.ctxDone = false ∧
      s.coordinators = [] ∧ s.stopWaiting = 0 ∧ s.m.allWorkersStopped = false ∧ s.closes = 0
  skips_zero : s.skips = 0
  ticks : s.ticksReceived =
      s.invocations + s.skips + s.flows.countP Flow.holdsTick
  wg_count : s.wg = ((s.flows.countP Flow.alive : Nat) : Int)
  coord : s.m.started = true →
      (s.coordinators = [CoordPc.atWait] ∧ s.closes = 0 ∧ s.m.allWorkersStopped = false) ∨
      (s.coordinators = [CoordPc.atClose] ∧ s.closes = 0 ∧ s.m.allWorkersStopped = false ∧
        s.wg = 0) ∨
      (s.coordinators = [CoordPc.done] ∧ s.closes = 1 ∧ s.m.allWorkersStopped = true ∧
        s.wg = 0)

/-! ## A timed run of one worker

Time is discrete. A Go `time.Ticker` of period `interval` fires at `interval`,
`2 * interval`, ... with a non-blocking send on `ticker.C` (capacity 1); fn
takes `dur` units to return; the steps of the goroutine take no time. The run
drives the goroutine of one registered worker through `step`, event by event:
an event is a firing of the ticker or the return of fn. -/

/-- Take a step when it is enabled, else stay. -/
def stepD (s : State) (l : Label) : State := (step s l).getD s

/-- State of the timed run: the process state, the clock, the instant at which
the ticker fires next, the instant at which the running fn returns, and the
instants at which the invocations so far began. -/
structure Sim where
  st : State
  now : Nat
  nextTick : Nat
  fnEnd : Option Nat
  begun : List Nat
deriving DecidableEq, Repr

/-- The instant of the next event: the next firing of the ticker or the return
of fn, whichever comes first. -/
def Sim.nextEvent (x : Sim) : Nat :=
  match x.fnEnd with
  | none => x.nextTick
  | some e => min e x.nextTick

/-- The goroutine runs as far as it can at the instant `now`: if fn returns now
it returns and `Store(false)` follows; then the `select` is resolved (the
context is not cancelled here, so only a buffered tick can be received) and
the CompareAndSwap and call follow. A call that begins is recorded with the
instant of its return. -/
def Sim.flowProgress (x : Sim) (dur : Nat) : Sim :=
  let due : Bool := decide (x.fnEnd = some x.now)
  let s1 := if due then stepD (stepD x.st (Label.fnReturn 0)) (Label.store 0) else x.st
  let e1 := if due then none else x.fnEnd
  let s2 := stepD (stepD s1 (Label.loopSelect 0 true)) (Label.cas 0)
  if s2.invocations = s1.invocations then { x with st := s2, fnEnd := e1 }
  else { x with st := s2, fnEnd := some (x.now + dur), begun := x.begun ++ [x.now] }

/-- The ticker fires if its instant has come, and is re-armed one period later. -/
def Sim.tickerFire (x : Sim) (interval : Nat) : Sim :=
  if x.now = x.nextTick then
    { x with st := stepD x.st (Label.tick 0), nextTick := x.nextTick + interval }
  else x

/-- Move the clock to the next event and handle what happens at that instant.
When the ticker fires at the very instant fn returns, `tickFirst` says which
of the two the runtime handles first. -/
def Sim.advance (x : Sim) (tickFirst : Bool) (interval dur : Nat) : Sim :=
  let y : Sim := { x with now := x.nextEvent }
  if tickFirst then (y.tickerFire interval).flowProgress dur
  else ((y.flowProgress dur).tickerFire interval).flowProgress dur

/-- The start of the timed run: `NewManager`, one `Every(interval, fn)`,
`Start`, and the goroutine creates its ticker at time 0. -/
def Sim.init (interval : Nat) : Sim :=
  { st := stepD (Manager.Start (Manager.Every (NewManager none) interval 0).1) (Label.newTicker 0),
    now := 0, nextTick := interval, fnEnd := none, begun := [] }

/-- Handle the events before `horizon`, at most `fuel` of them. -/
def simulate (tickFirst : Bool) (interval dur horizon : Nat) : Nat → Sim → Sim
  | 0, x => x
  | n + 1, x =>
      if x.nextEvent < horizon then
        simulate tickFirst interval dur horizon n (x.advance tickFirst interval dur)
      else x

/-- The instants before `horizon` at which invocations of fn begin. Events are
at least one time unit apart when `interval` and `dur` are positive, so
`horizon` events of fuel are enough. -/
def invocationTimes (tickFirst : Bool) (interval dur horizon : Nat) : List Nat :=
  (simulate tickFirst interval dur horizon horizon (Sim.init interval)).begun

/-! ## Example runs -/

/-- A registered worker whose `fn` is running: one `Every`, `Start`, the
ticker is created, fires, the tick is received and `fn` is called. -/
def traceBusy : List Label :=
  [Label.callEvery 100 7, Label.callStart, Label.newTicker 0, Label.tick 0,
   Label.loopSelect 0 true, Label.cas 0]

/-- The state reached by `traceBusy`. -/
def stateBusy : State := (run (NewManager none) traceBusy).getD (NewManager none)

/-- Two registrations and no Start. -/
def traceCreated : List Label := [Label.callEvery 5 1, Label.callEvery 0 2]

/-- The state reached by `traceCreated`. -/
def stateCreated : State := (run (NewManager none) traceCreated).getD (NewManager none)

/-- A run to the closed completion signal: one worker registered, Start, Stop
cancels the context, the goroutine returns, the coordinator closes. -/
def traceClosed : List Label :=
  [Label.callEvery 100 7, Label.callStart, Label.newTicker 0, Label.callStop,
   Label.loopSelect 0 false, Label.wgWait 0, Label.closeSignal 0]

/-- The state reached by `traceClosed`. -/
def stateClosed : State := (run (NewManager none) traceClosed).getD (NewManager none)

/-- A received tick not yet acted on: as `traceBusy` without the last step. -/
def traceTick : List Label :=
  [Label.callEvery 100 7, Label.callStart, Label.newTicker 0, Label.tick 0,
   Label.loopSelect 0 true]

/-- The state reached by `traceTick`. -/
def stateTick : State := (run (NewManager none) traceTick).getD (NewManager none)

/-- A started Manager with no worker whose completion signal is closed. -/
def traceIdleClosed : List Label := [Label.callStart, Label.wgWait 0, Label.closeSignal 0]

/-- The state reached by `traceIdleClosed`. -/
def stateIdleClosed : State := (run (NewManager none) traceIdleClosed).getD (NewManager none)

/-- The error `Stop` returns at line 106. -/
def stopError : GoError := GoError.fmtErrorf "periodically.Stop" ErrWorkersStoppedForcibly

/-- A worker waiting in its `select` with a tick buffered in `ticker.C` when
`Stop` cancels the context. -/
def traceCancelled : List Label :=
  [Label.callEvery 100 7, Label.callStart, Label.newTicker 0, Label.tick 0, Label.callStop]

/-- The state reached by `traceCancelled`. -/
def stateCancelled : State := (run (NewManager none) traceCancelled).getD (NewManager none)

/-- A worker waiting in its `select` with no tick buffered when `Stop` cancels
the context. -/
def traceCancelledIdle : List Label :=
  [Label.callEvery 100 7, Label.callStart, Label.newTicker 0, Label.callStop]

/-- The state reached by `traceCancelledIdle`. -/
def stateCancelledIdle : State :=
  (run (NewManager none) traceCancelledIdle).getD (NewManager none)

/-- What follows a Start in the example of C4: a rejected registration, a
Stop that cancels, the goroutine returns, the coordinator closes, the Stop
returns, one more registration and one more Start. -/
def traceAfterStart : List Label :=
  [Label.callEvery 9 3, Label.newTicker 0, Label.callStop, Label.loopSelect 0 false,
   Label.wgWait 0, Label.closeSignal 0, Label.stopSelect false false, Label.callEvery 1 4,
   Label.callStart]

/-- The state reached by `traceAfterStart` from the Start of a Manager with
one registered worker. -/
def stateAfterStart : State :=
  (run (Manager.Start (Manager.Every (NewManager none) 5 1).1) traceAfterStart).getD
    (NewManager none)

/-- The process with one started worker of interval `interval`: its goroutine
at `pc`, `pending` the content of `ticker.C`, `flag` the worker's
`prevOperationInProgress`, after `received` ticks and `invoked` calls. -/
def loopState (interval : Nat) (pc : FlowPc) (pending flag : Bool) (received invoked : Nat) :
    State :=
  { m := { log := [{ level := LogLevel.Info, msg := "periodically workers are running" }],
           ctxDone := false, started := true, workers := [0], allWorkersStopped := false },
    heap := [{ fn := 0, interval := interval, prevOperationInProgress := flag }],
    wg := 1, flows := [{ w := 0, pc := pc, tickerC := pending }],
    coordinators := [CoordPc.atWait], stopWaiting := 0, crashed := false, closes := 0,
    skips := 0, ticksReceived := received, invocations := invoked }

/-- The timed run while the `n`-th call of fn is executing: it returns at
`e`, the ticker fires next at `T`. -/
def busySim (interval : Nat) (pending : Bool) (n now T e : Nat) (times : List Nat) : Sim :=
  { st := loopState interval FlowPc.inFn pending true n n, now := now, nextTick := T,
    fnEnd := some e, begun := times }

/-- An invocation in flight when `Stop` cancels the context: `traceBusy`, then
the call of `Stop`. -/
def traceBusyCancelled : List Label := traceBusy ++ [Label.callStop]

/-- The state reached by `traceBusyCancelled`. -/
def stateBusyCancelled : State :=
  (run (NewManager none) traceBusyCancelled).getD (NewManager none)

/-! ## Lemmas -/

theorem flowStep_eq_some {s s1 : State} {i : Nat} {pc : FlowPc}
    {k : State → Nat → Flow → Option State} (h : flowStep s i pc k = some s1) :
    ∃ f, s.flows[i]? = some f ∧ f.pc = pc ∧ k s i f = some s1 := by
  unfold flowStep at h
  split at h
  · exact absurd h (by simp)
  · rename_i f hf
    by_cases hp : f.pc = pc
    · rw [if_pos hp] at h
      exact ⟨f, hf, hp, h⟩
    · rw [if_neg hp] at h
      exact absurd h (by simp)

theorem countP_set_add {α : Type} (p : α → Bool) (l : List α) (i : Nat) (a b : α)
    (h : l[i]? = some a) :
    (l.set i b).countP p + (if p a then 1 else 0) = l.countP p + (if p b then 1 else 0) := by
  induction l generalizing i with
  | nil => simp at h
  | cons x xs ih =>
    cases i with
    | zero =>
      simp at h
      subst h
      simp [List.countP_cons]
      omega
    | succ n =>
      simp at h
      have := ih n h
      simp [List.countP_cons]
      omega

theorem set_self_of_getElem? {α : Type} (l : List α) (i : Nat) (a : α) (h : l[i]? = some a) :
    l.set i a = l := by
  induction l generalizing i with
  | nil => simp
  | cons x xs ih =>
    cases i with
    | zero => simp at h; simp [h]
    | succ n => simp at h; simp [ih n h]

theorem foldl_workerStart (ws : List Nat) (s : State) :
    ws.foldl worker.Start s =
      { s with wg := s.wg + ws.length, flows := s.flows ++ ws.map spawned } := by
  induction ws generalizing s with
  | nil => simp
  | cons w ws ih =>
    simp only [List.foldl_cons, ih, worker.Start, spawned, List.length_cons, List.map_cons,
      List.append_assoc, List.singleton_append, Nat.cast_add, Nat.cast_one]
    congr 1
    omega

theorem Inv_NewManager (log : Option (List LogRecord)) : Inv (NewManager log) := by
  constructor <;> simp [NewManager]

theorem Inv.flows_nil {s : State} (hI : Inv s) (h : s.m.started = false) : s.flows = [] := by
  have := hI.flows_w
  simpa [h] using this

theorem Inv.flow_w {s : State} (hI : Inv s) {i : Nat} {f : Flow} (h : s.flows[i]? = some f) :
    f.w = i := by
  have h1 : (s.flows.map Flow.w)[i]? = some f.w := by simp [h]
  rw [hI.flows_w] at h1
  by_cases hs : s.m.started = true
  · rw [if_pos hs, hI.workers_range] at h1
    rw [List.getElem?_range] at h1
    · simpa using h1.symm
    · by_contra hc
      rw [List.getElem?_eq_none (by simpa using hc)] at h1
      simp at h1
  · rw [if_neg hs] at h1
    simp at h1

theorem Inv_callEvery {s : State} (hI : Inv s) (interval : Duration) (fn : FnId) :
    Inv (Manager.Every s interval fn).1 := by
  unfold Manager.Every
  by_cases hs : s.m.started = true
  · simpa [hs] using hI
  · have hs' : s.m.started = false := by simpa using hs
    have hf := hI.flows_nil hs'
    obtain ⟨h1, h2, h3, h4, h5, h6⟩ := hI.fresh hs'
    simp only [hs', Bool.false_eq_true, if_false]
    constructor
    · simp [hI.workers_range, List.range_succ]
    · simp [hs', hf]
    · simp [hf]
    · intro _
      refine ⟨?_, h2, h3, h4, h5, h6⟩
      intro wk hwk
      simp at hwk
      rcases hwk with hwk | hwk
      · exact h1 wk hwk
      · simp [hwk]
    · exact hI.skips_zero
    · simpa using hI.ticks
    · simpa using hI.wg_count
    · simp [hs']

theorem Inv_callStart {s : State} (hI : Inv s) : Inv (Manager.Start s) := by
  unfold Manager.Start
  by_cases hs : s.m.started = true
  · simpa [hs] using hI
  · have hs' : s.m.started = false := by simpa using hs
    have hf := hI.flows_nil hs'
    obtain ⟨h1, h2, h3, h4, h5, h6⟩ := hI.fresh hs'
    have ht := hI.ticks
    simp only [hs', Bool.false_eq_true, if_false, foldl_workerStart, State.logf]
    constructor
    · simpa using hI.workers_range
    · simp [hf, spawned, Function.comp_def]
    · intro i f wk hi hw hp
      simp [hf, spawned] at hi
      have : wk ∈ s.heap := by
        exact List.getElem?_mem hw
      have := h1 wk this
      simp [this] at hp
    · simp
    · exact hI.skips_zero
    · simp [hf, spawned, List.countP_map, Function.comp_def, Flow.holdsTick]
      simpa [hf] using ht
    · simp [hf, spawned, List.countP_map, Function.comp_def, Flow.alive]
    · intro _
      left
      simp [h3, h5, h6]


theorem Inv.started_of_flow {s : State} (hI : Inv s) {i : Nat} {f : Flow}
    (h : s.flows[i]? = some f) : s.m.started = true := by
  by_contra hs
  have := hI.flows_nil (by simpa using hs)
  simp [this] at h

theorem Inv.heap_at {s : State} (hI : Inv s) {i : Nat} {f : Flow} (h : s.flows[i]? = some f) :
    ∃ wk, s.heap[f.w]? = some wk := by
  have hs := hI.started_of_flow h
  have hw := hI.flow_w h
  have hl : s.flows.length = s.heap.length := by
    have := congrArg List.length hI.flows_w
    simpa [hs, hI.workers_range] using this
  have hi : i < s.flows.length := by
    rcases List.getElem?_eq_some.mp h with ⟨hi, _⟩
    exact hi
  have : f.w < s.heap.length := by omega
  exact ⟨s.heap[f.w], by simp [this]⟩

theorem Inv.wg_pos {s : State} (hI : Inv s) {i : Nat} {f : Flow} (h : s.flows[i]? = some f)
    (hp : f.pc ≠ FlowPc.exited) : 1 ≤ s.wg := by
  rw [hI.wg_count]
  have : 0 < s.flows.countP Flow.alive := by
    rw [List.countP_pos_iff]
    exact ⟨f, List.getElem?_mem h, by simpa [Flow.alive] using hp⟩
  omega

theorem Inv_crash {s : State} (hI : Inv s) : Inv { s with crashed := true } := by
  constructor
  · exact hI.workers_range
  · exact hI.flows_w
  · exact hI.flag_pc
  · exact hI.fresh
  · exact hI.skips_zero
  · exact hI.ticks
  · exact hI.wg_count
  · exact hI.coord

theorem Inv_flowUpdate {s s1 : State} (hI : Inv s) {i : Nat} {f : Flow} (f1 : Flow)
    (wk1 : worker) (hf : s.flows[i]? = some f) (hp : f.pc ≠ FlowPc.exited) (hw : f1.w = f.w)
    (hm : s1.m = s.m) (hflows : s1.flows = s.flows.set i f1)
    (hheap : s1.heap = s.heap.set f.w wk1)
    (hflag : wk1.prevOperationInProgress = true →
      f1.pc = FlowPc.inFn ∨ f1.pc = FlowPc.atStore)
    (hsk : s1.skips = s.skips) (hco : s1.coordinators = s.coordinators)
    (hcl : s1.closes = s.closes)
    (hticks : s1.ticksReceived + s.invocations + (if f.pc = FlowPc.atCAS then 1 else 0) =
      s.ticksReceived + s1.invocations + (if f1.pc = FlowPc.atCAS then 1 else 0))
    (hwg : s1.wg + 1 = s.wg + (if f1.pc = FlowPc.exited then 0 else 1)) : Inv s1 := by
  have hs := hI.started_of_flow hf
  have hfw := hI.flow_w hf
  have hpos := hI.wg_pos hf hp
  constructor
  · rw [hm, hheap, List.length_set]
    exact hI.workers_range
  · rw [hm, hflows, List.map_set, hw, ← hI.flows_w]
    exact set_self_of_getElem? _ _ _ (by simp [hf])
  · intro j g wk hj hg hflg
    rw [hflows, List.getElem?_set] at hj
    rw [hheap, List.getElem?_set] at hg
    by_cases hij : i = j
    · subst hij
      have hlt : i < s.flows.length := (List.getElem?_eq_some.mp hf).1
      simp [hlt] at hj
      subst hj
      rw [hw] at hg
      simp at hg
      rcases hg with ⟨_, hg⟩
      subst hg
      exact hflag hflg
    · simp [hij] at hj
      have hgw := hI.flow_w hj
      have hne : f.w ≠ g.w := by omega
      simp [hne] at hg
      exact hI.flag_pc j g wk hj hg hflg
  · intro h
    rw [hm] at h
    rw [h] at hs
    exact absurd hs (by simp)
  · rw [hsk]
    exact hI.skips_zero
  · have h1 := countP_set_add Flow.holdsTick s.flows i f f1 hf
    have h2 := hI.ticks
    rw [hflows, hsk]
    simp only [Flow.holdsTick, decide_eq_true_eq] at h1
    omega
  · have h1 := countP_set_add Flow.alive s.flows i f f1 hf
    have h2 := hI.wg_count
    rw [hflows]
    have ha : f.alive = true := by simpa [Flow.alive] using hp
    rw [ha] at h1
    by_cases he : f1.pc = FlowPc.exited
    · have hb : f1.alive = false := by simp [Flow.alive, he]
      rw [hb] at h1
      simp only [he, if_true, Bool.false_eq_true, if_false] at h1 hwg
      omega
    · have hb : f1.alive = true := by simp [Flow.alive, he]
      rw [hb] at h1
      simp only [he, if_true, if_false] at h1 hwg
      omega
  · intro h
    rw [hm] at h
    rcases hI.coord h with h1 | h1 | h1
    · left
      rw [hco, hcl, hm]
      exact h1
    · omega
    · omega


theorem Inv_frame {s s1 : State} (hI : Inv s)
    (hst : s1.m.started = s.m.started) (hwk : s1.m.workers = s.m.workers)
    (hcl : s1.m.allWorkersStopped = s.m.allWorkersStopped)
    (hheap : s1.heap = s.heap) (hwg : s1.wg = s.wg) (hflows : s1.flows = s.flows)
    (hco : s1.coordinators = s.coordinators) (hcs : s1.closes = s.closes)
    (hsk : s1.skips = s.skips) (htr : s1.ticksReceived = s.ticksReceived)
    (hin : s1.invocations = s.invocations)
    (hfr : s.m.started = false → s1.m.ctxDone = false ∧ s1.stopWaiting = 0) : Inv s1 := by
  constructor
  · rw [hwk, hheap]
    exact hI.workers_range
  · rw [hflows, hst, hwk]
    exact hI.flows_w
  · rw [hflows, hheap]
    exact hI.flag_pc
  · intro h
    rw [hst] at h
    obtain ⟨h1, _, h3, _, h5, h6⟩ := hI.fresh h
    rw [hheap, hco, hcl, hcs]
    exact ⟨h1, (hfr h).1, h3, (hfr h).2, h5, h6⟩
  · rw [hsk]
    exact hI.skips_zero
  · rw [htr, hin, hsk, hflows]
    exact hI.ticks
  · rw [hwg, hflows]
    exact hI.wg_count
  · rw [hst, hco, hcs, hcl, hwg]
    exact hI.coord

theorem Inv_callStop {s s1 : State} (hI : Inv s) (h : step s Label.callStop = some s1) :
    Inv s1 := by
  unfold step at h
  split at h
  · exact absurd h (by simp)
  · simp only [Manager.Stop_enter, State.logf] at h
    by_cases hs : s.m.started = true
    · simp only [hs, Bool.not_true, Bool.false_eq_true, if_false, Option.some.injEq] at h
      subst h
      apply Inv_frame hI <;> simp [hs]
    · have hs1 : s.m.started = false := by simpa using hs
      have hfr := hI.fresh hs1
      simp only [hs1, Bool.not_false, if_true, Option.some.injEq] at h
      subst h
      apply Inv_frame hI <;> simp [hfr, hs1]

theorem Inv_stopSelect {s s1 : State} (hI : Inv s) (ctxDone pick : Bool)
    (h : step s (Label.stopSelect ctxDone pick) = some s1) : Inv s1 := by
  unfold step at h
  split at h
  · exact absurd h (by simp)
  · simp only [Manager.Stop_select, State.logf] at h
    by_cases hz : s.stopWaiting = 0
    · simp [hz] at h
    · have hs : s.m.started = true := by
        by_contra hs
        exact hz (hI.fresh (by simpa using hs)).2.2.2.1
      simp only [hz, if_false] at h
      rcases hsel : select2 s.m.allWorkersStopped ctxDone pick with _ | b
      · simp [hsel] at h
      · cases b
        · simp only [hsel, Option.some.injEq] at h
          subst h
          apply Inv_frame hI <;> simp [hs]
        · simp only [hsel, Option.some.injEq] at h
          subst h
          apply Inv_frame hI <;> simp [hs]


theorem Inv.flag_false {s : State} (hI : Inv s) {i : Nat} {f : Flow} {wk : worker}
    (hf : s.flows[i]? = some f) (hw : s.heap[f.w]? = some wk)
    (h1 : f.pc ≠ FlowPc.inFn) (h2 : f.pc ≠ FlowPc.atStore) :
    wk.prevOperationInProgress = false := by
  by_contra hc
  rcases hI.flag_pc i f wk hf hw (by simpa using hc) with h | h
  · exact h1 h
  · exact h2 h

theorem Inv_newTicker {s s1 : State} (hI : Inv s) (i : Nat)
    (h : step s (Label.newTicker i) = some s1) : Inv s1 := by
  unfold step at h
  split at h
  · exact absurd h (by simp)
  · obtain ⟨f, hf, hp, hk⟩ := flowStep_eq_some h
    unfold flowNewTicker at hk
    rcases hw : s.heap[f.w]? with _ | wk
    · simp [hw] at hk
    · simp only [hw] at hk
      by_cases hint : wk.interval ≤ 0
      · rw [if_pos hint, Option.some.injEq] at hk
        subst hk
        exact Inv_crash hI
      · rw [if_neg hint, Option.some.injEq] at hk
        subst hk
        have hfl := hI.flag_false hf hw (by simp [hp]) (by simp [hp])
        apply Inv_flowUpdate hI
          { f with pc := FlowPc.atSelect, tickerC := false }
          wk hf
        · simp [hp]
        · rfl
        · rfl
        · rfl
        · exact (set_self_of_getElem? _ _ _ hw).symm
        · simp [hfl]
        · rfl
        · rfl
        · rfl
        · simp [hp, State.setFlow]
        · simp [State.setFlow]

theorem Inv_tick {s s1 : State} (hI : Inv s) (i : Nat)
    (h : step s (Label.tick i) = some s1) : Inv s1 := by
  unfold step at h
  split at h
  · exact absurd h (by simp)
  · rcases hf : s.flows[i]? with _ | f
    · simp [hf] at h
    · simp only [hf] at h
      obtain ⟨wk, hw⟩ := hI.heap_at hf
      have hfl := hI.flag_pc i f wk hf hw
      unfold flowTick at h
      have key : f.pc ≠ FlowPc.exited → s1 = s.setFlow i { f with tickerC := true } → Inv s1 := by
        intro hp hs1
        subst hs1
        apply Inv_flowUpdate hI
          { f with tickerC := true }
          wk hf
        · exact hp
        · rfl
        · rfl
        · rfl
        · exact (set_self_of_getElem? _ _ _ hw).symm
        · exact hfl
        · rfl
        · rfl
        · rfl
        · simp [State.setFlow]
        · simp [hp, State.setFlow]
      rcases hp : f.pc <;> simp only [hp, Option.some.injEq] at h <;>
        first
        | exact absurd h (by simp)
        | exact key (by simp [hp]) (by rw [hp]; exact h.symm)

theorem Inv_fnReturn {s s1 : State} (hI : Inv s) (i : Nat)
    (h : step s (Label.fnReturn i) = some s1) : Inv s1 := by
  unfold step at h
  split at h
  · exact absurd h (by simp)
  · obtain ⟨f, hf, hp, hk⟩ := flowStep_eq_some h
    obtain ⟨wk, hw⟩ := hI.heap_at hf
    simp only [Option.some.injEq] at hk
    subst hk
    apply Inv_flowUpdate hI
          { f with pc := FlowPc.atStore }
          wk hf
    · simp [hp]
    · rfl
    · rfl
    · rfl
    · exact (set_self_of_getElem? _ _ _ hw).symm
    · simp
    · rfl
    · rfl
    · rfl
    · simp [hp, State.setFlow]
    · simp [State.setFlow]

theorem Inv_fnPanic {s s1 : State} (hI : Inv s) (i : Nat)
    (h : step s (Label.fnPanic i) = some s1) : Inv s1 := by
  unfold step at h
  split at h
  · exact absurd h (by simp)
  · obtain ⟨f, hf, hp, hk⟩ := flowStep_eq_some h
    simp only [Option.some.injEq] at hk
    subst hk
    exact Inv_crash hI

theorem Inv_store {s s1 : State} (hI : Inv s) (i : Nat)
    (h : step s (Label.store i) = some s1) : Inv s1 := by
  unfold step at h
  split at h
  · exact absurd h (by simp)
  · obtain ⟨f, hf, hp, hk⟩ := flowStep_eq_some h
    unfold flowStore at hk
    rcases hw : s.heap[f.w]? with _ | wk
    · simp [hw] at hk
    · simp only [hw, Option.some.injEq] at hk
      subst hk
      apply Inv_flowUpdate hI
          { f with pc := FlowPc.atSelect }
          { wk with prevOperationInProgress := false } hf
      · simp [hp]
      · rfl
      · rfl
      · rfl
      · rfl
      · simp
      · rfl
      · rfl
      · rfl
      · simp [hp, State.setFlow]
      · simp [State.setFlow]

theorem Inv_cas {s s1 : State} (hI : Inv s) (i : Nat)
    (h : step s (Label.cas i) = some s1) : Inv s1 := by
  unfold step at h
  split at h
  · exact absurd h (by simp)
  · obtain ⟨f, hf, hp, hk⟩ := flowStep_eq_some h
    unfold flowCAS at hk
    rcases hw : s.heap[f.w]? with _ | wk
    · simp [hw] at hk
    · have hfl := hI.flag_false hf hw (by simp [hp]) (by simp [hp])
      simp only [hw, hfl, Bool.false_eq_true, if_false, Option.some.injEq] at hk
      subst hk
      apply Inv_flowUpdate hI
          { f with pc := FlowPc.inFn }
          { wk with prevOperationInProgress := true } hf
      · simp [hp]
      · rfl
      · rfl
      · rfl
      · rfl
      · simp
      · rfl
      · rfl
      · rfl
      · simp [hp, State.setFlow]
        omega
      · simp [State.setFlow]

theorem Inv_loopSelect {s s1 : State} (hI : Inv s) (i : Nat) (pick : Bool)
    (h : step s (Label.loopSelect i pick) = some s1) : Inv s1 := by
  unfold step at h
  split at h
  · exact absurd h (by simp)
  · obtain ⟨f, hf, hp, hk⟩ := flowStep_eq_some h
    obtain ⟨wk, hw⟩ := hI.heap_at hf
    have hfl := hI.flag_false hf hw (by simp [hp]) (by simp [hp])
    have hpos := hI.wg_pos hf (by simp [hp])
    simp only [flowSelect] at hk
    rcases hsel : select2 s.m.ctxDone f.tickerC pick with _ | b
    · simp [hsel] at hk
    · cases b
      · simp only [hsel, Option.some.injEq] at hk
        subst hk
        have hnc : ¬ (s.wg - 1 < 0) := by omega
        apply Inv_flowUpdate hI
          { f with pc := FlowPc.exited }
          wk hf
        · simp [hp]
        · rfl
        · simp only [wgDone, State.setFlow, hnc, if_false]
        · simp only [wgDone, State.setFlow, hnc, if_false]
        · simp only [wgDone, State.setFlow, hnc, if_false]
          exact (set_self_of_getElem? _ _ _ hw).symm
        · simp [hfl]
        · simp only [wgDone, State.setFlow, hnc, if_false]
        · simp only [wgDone, State.setFlow, hnc, if_false]
        · simp only [wgDone, State.setFlow, hnc, if_false]
        · simp [wgDone, State.setFlow, hnc, hp]
        · simp [wgDone, State.setFlow, hnc]
      · simp only [hsel, Option.some.injEq] at hk
        subst hk
        apply Inv_flowUpdate hI
          { f with pc := FlowPc.atCAS, tickerC := false }
          wk hf
        · simp [hp]
        · rfl
        · rfl
        · rfl
        · exact (set_self_of_getElem? _ _ _ hw).symm
        · simp [hfl]
        · rfl
        · rfl
        · rfl
        · simp [hp, State.setFlow]
          omega
        · simp [State.setFlow]


theorem Inv_coordUpdate {s s1 : State} (hI : Inv s) (hs : s.m.started = true)
    (hst : s1.m.started = s.m.started) (hwk : s1.m.workers = s.m.workers)
    (hheap : s1.heap = s.heap) (hwg : s1.wg = s.wg) (hflows : s1.flows = s.flows)
    (hsk : s1.skips = s.skips) (htr : s1.ticksReceived = s.ticksReceived)
    (hin : s1.invocations = s.invocations)
    (hco :
      (s1.coordinators = [CoordPc.atWait] ∧ s1.closes = 0 ∧ s1.m.allWorkersStopped = false) ∨
      (s1.coordinators = [CoordPc.atClose] ∧ s1.closes = 0 ∧ s1.m.allWorkersStopped = false ∧
        s1.wg = 0) ∨
      (s1.coordinators = [CoordPc.done] ∧ s1.closes = 1 ∧ s1.m.allWorkersStopped = true ∧
        s1.wg = 0)) : Inv s1 := by
  constructor
  · rw [hwk, hheap]
    exact hI.workers_range
  · rw [hflows, hst, hwk]
    exact hI.flows_w
  · rw [hflows, hheap]
    exact hI.flag_pc
  · intro h
    rw [hst, hs] at h
    exact absurd h (by simp)
  · rw [hsk]
    exact hI.skips_zero
  · rw [htr, hin, hsk, hflows]
    exact hI.ticks
  · rw [hwg, hflows]
    exact hI.wg_count
  · intro _
    exact hco

theorem Inv.coord_at {s : State} (hI : Inv s) {j : Nat} {c : CoordPc}
    (h : s.coordinators[j]? = some c) :
    s.m.started = true ∧ j = 0 ∧ s.coordinators = [c] := by
  have hs : s.m.started = true := by
    by_contra hs
    have := (hI.fresh (by simpa using hs)).2.2.1
    simp [this] at h
  refine ⟨hs, ?_⟩
  rcases hI.coord hs with h1 | h1 | h1 <;>
    · rw [h1.1] at h
      cases j with
      | zero =>
        simp at h
        simp [h1.1, h]
      | succ n => simp at h

theorem Inv_wgWait {s s1 : State} (hI : Inv s) (j : Nat)
    (h : step s (Label.wgWait j) = some s1) : Inv s1 := by
  unfold step at h
  split at h
  · exact absurd h (by simp)
  · simp only [coordStep] at h
    rcases hc : s.coordinators[j]? with _ | c
    · simp [hc] at h
    · obtain ⟨hs, hj, hco⟩ := hI.coord_at hc
      subst hj
      simp only [hc] at h
      by_cases hcp : c = CoordPc.atWait
      · subst hcp
        by_cases hwg : s.wg = 0
        · simp only [if_true, hwg, Option.some.injEq] at h
          subst h
          rcases hI.coord hs with h1 | h1 | h1
          · refine Inv_coordUpdate hI hs (by simp) (by simp) (by simp) (by simp [*]) (by simp)
              (by simp) (by simp) (by simp) ?_
            right
            left
            simp [hco, h1.2.1, h1.2.2, hwg]
          · rw [hco] at h1
            simp at h1
          · rw [hco] at h1
            simp at h1
        · simp [hwg] at h
      · simp [hcp] at h

theorem Inv_closeSignal {s s1 : State} (hI : Inv s) (j : Nat)
    (h : step s (Label.closeSignal j) = some s1) : Inv s1 := by
  unfold step at h
  split at h
  · exact absurd h (by simp)
  · simp only [coordStep] at h
    rcases hc : s.coordinators[j]? with _ | c
    · simp [hc] at h
    · obtain ⟨hs, hj, hco⟩ := hI.coord_at hc
      subst hj
      simp only [hc] at h
      by_cases hcp : c = CoordPc.atClose
      · subst hcp
        rcases hI.coord hs with h1 | h1 | h1
        · rw [hco] at h1
          simp at h1
        · simp only [if_true, h1.2.2.1, Bool.false_eq_true, if_false, Option.some.injEq] at h
          subst h
          refine Inv_coordUpdate hI hs (by simp) (by simp) (by simp) (by simp [*]) (by simp)
              (by simp) (by simp) (by simp) ?_
          right
          right
          simp [hco, h1.2.1, h1.2.2.2]
        · rw [hco] at h1
          simp at h1
      · simp [hcp] at h

theorem Inv_step {s s1 : State} (hI : Inv s) (l : Label) (h : step s l = some s1) : Inv s1 := by
  cases l with
  | callEvery interval fn =>
    have hc : s.crashed = false := by
      by_contra hc
      simp [step, hc] at h
    simp only [step, hc, Bool.false_eq_true, if_false, Option.some.injEq] at h
    subst h
    exact Inv_callEvery hI interval fn
  | callStart =>
    have hc : s.crashed = false := by
      by_contra hc
      simp [step, hc] at h
    simp only [step, hc, Bool.false_eq_true, if_false, Option.some.injEq] at h
    subst h
    exact Inv_callStart hI
  | callStop => exact Inv_callStop hI h
  | stopSelect ctxDone pick => exact Inv_stopSelect hI ctxDone pick h
  | newTicker i => exact Inv_newTicker hI i h
  | tick i => exact Inv_tick hI i h
  | loopSelect i pick => exact Inv_loopSelect hI i pick h
  | cas i => exact Inv_cas hI i h
  | fnReturn i => exact Inv_fnReturn hI i h
  | fnPanic i => exact Inv_fnPanic hI i h
  | store i => exact Inv_store hI i h
  | wgWait j => exact Inv_wgWait hI j h
  | closeSignal j => exact Inv_closeSignal hI j h

theorem Inv_run {s s1 : State} (hI : Inv s) (ls : List Label) (h : run s ls = some s1) :
    Inv s1 := by
  induction ls generalizing s with
  | nil =>
    simp only [run, Option.some.injEq] at h
    subst h
    exact hI
  | cons l ls ih =>
    simp only [run] at h
    rcases hs : step s l with _ | s2
    · simp [hs] at h
    · simp only [hs] at h
      exact ih (Inv_step hI l hs) h

theorem Inv_of_Reachable {s : State} (h : Reachable s) : Inv s := by
  obtain ⟨log, ls, hr⟩ := h
  exact Inv_run (Inv_NewManager log) ls hr

theorem stateBusy_reachable : Reachable stateBusy := ⟨none, traceBusy, by rfl⟩

theorem countP_le_one_of_range {s : State} (hI : Inv s) (p : Nat) :
    s.flows.countP (fun f => decide (f.w = p)) ≤ 1 := by
  have h1 : s.flows.countP (fun f => decide (f.w = p)) = (s.flows.map Flow.w).count p := by
    rw [List.count, List.countP_map]
    rfl
  rw [h1, hI.flows_w]
  by_cases hs : s.m.started = true
  · rw [if_pos hs, hI.workers_range]
    exact List.nodup_iff_count_le_one.mp (List.nodup_range _) p
  · rw [if_neg hs]
    simp

theorem wgDone_m (s : State) : (wgDone s).m = s.m := by
  unfold wgDone
  split <;> rfl

theorem step_crashed {s s1 : State} {l : Label} (h : step s l = some s1) :
    s.crashed = false := by
  by_contra hc
  simp [step, hc] at h

theorem step_newTicker_m {s s1 : State} {i : Nat} (h : step s (Label.newTicker i) = some s1) :
    s1.m = s.m := by
  simp only [step, step_crashed h, Bool.false_eq_true, if_false] at h
  obtain ⟨f, _, _, hk⟩ := flowStep_eq_some h
  unfold flowNewTicker at hk
  split at hk
  · exact absurd hk (by simp)
  · split at hk <;>
    · simp only [Option.some.injEq] at hk
      subst hk
      rfl

theorem step_tick_m {s s1 : State} {i : Nat} (h : step s (Label.tick i) = some s1) :
    s1.m = s.m := by
  simp only [step, step_crashed h, Bool.false_eq_true, if_false] at h
  split at h
  · exact absurd h (by simp)
  · unfold flowTick at h
    split at h <;>
      first
      | (simp only [Option.some.injEq] at h
         subst h
         rfl)
      | exact absurd h (by simp)

theorem step_loopSelect_m {s s1 : State} {i : Nat} {pick : Bool}
    (h : step s (Label.loopSelect i pick) = some s1) : s1.m = s.m := by
  simp only [step, step_crashed h, Bool.false_eq_true, if_false] at h
  obtain ⟨f, _, _, hk⟩ := flowStep_eq_some h
  unfold flowSelect at hk
  split at hk
  · exact absurd hk (by simp)
  · simp only [Option.some.injEq] at hk
    subst hk
    rw [wgDone_m]
    rfl
  · simp only [Option.some.injEq] at hk
    subst hk
    rfl

theorem step_cas_m {s s1 : State} {i : Nat} (h : step s (Label.cas i) = some s1) :
    s1.m = s.m := by
  simp only [step, step_crashed h, Bool.false_eq_true, if_false] at h
  obtain ⟨f, _, _, hk⟩ := flowStep_eq_some h
  unfold flowCAS at hk
  split at hk
  · exact absurd hk (by simp)
  · split at hk <;>
    · simp only [Option.some.injEq] at hk
      subst hk
      rfl

theorem step_fnReturn_m {s s1 : State} {i : Nat} (h : step s (Label.fnReturn i) = some s1) :
    s1.m = s.m := by
  simp only [step, step_crashed h, Bool.false_eq_true, if_false] at h
  obtain ⟨f, _, _, hk⟩ := flowStep_eq_some h
  simp only [Option.some.injEq] at hk
  subst hk
  rfl

theorem step_fnPanic_m {s s1 : State} {i : Nat} (h : step s (Label.fnPanic i) = some s1) :
    s1.m = s.m := by
  simp only [step, step_crashed h, Bool.false_eq_true, if_false] at h
  obtain ⟨f, _, _, hk⟩ := flowStep_eq_some h
  simp only [Option.some.injEq] at hk
  subst hk
  rfl

theorem step_store_m {s s1 : State} {i : Nat} (h : step s (Label.store i) = some s1) :
    s1.m = s.m := by
  simp only [step, step_crashed h, Bool.false_eq_true, if_false] at h
  obtain ⟨f, _, _, hk⟩ := flowStep_eq_some h
  unfold flowStore at hk
  split at hk
  · exact absurd hk (by simp)
  · simp only [Option.some.injEq] at hk
    subst hk
    rfl

theorem step_frozen {s s1 : State} {l : Label} (hs : s.m.started = true)
    (h : step s l = some s1) : s1.m.started = true ∧ s1.m.workers = s.m.workers := by
  cases l with
  | callEvery interval fn =>
    simp only [step, step_crashed h, Bool.false_eq_true, if_false, Manager.Every, hs, if_true,
      Option.some.injEq] at h
    subst h
    exact ⟨hs, rfl⟩
  | callStart =>
    simp only [step, step_crashed h, Bool.false_eq_true, if_false, Manager.Start, hs, if_true,
      Option.some.injEq] at h
    subst h
    exact ⟨hs, rfl⟩
  | callStop =>
    simp only [step, step_crashed h, Bool.false_eq_true, if_false, Manager.Stop_enter, hs,
      Bool.not_true, Option.some.injEq] at h
    subst h
    exact ⟨rfl, rfl⟩
  | stopSelect ctxDone pick =>
    simp only [step, step_crashed h, Bool.false_eq_true, if_false] at h
    · split at h
      · exact absurd h (by simp)
      · unfold Manager.Stop_select at h
        rcases hsel : select2 s.m.allWorkersStopped ctxDone pick with _ | b
        · simp [hsel] at h
        · cases b <;>
          · simp only [hsel, Option.some.injEq] at h
            subst h
            exact ⟨hs, rfl⟩
  | wgWait j =>
    simp only [step, step_crashed h, Bool.false_eq_true, if_false, coordStep] at h
    rcases hc : s.coordinators[j]? with _ | c
    · simp [hc] at h
    · simp only [hc] at h
      split_ifs at h
      simp only [Option.some.injEq] at h
      subst h
      exact ⟨hs, rfl⟩
  | closeSignal j =>
    simp only [step, step_crashed h, Bool.false_eq_true, if_false, coordStep] at h
    rcases hc : s.coordinators[j]? with _ | c
    · simp [hc] at h
    · simp only [hc] at h
      split_ifs at h <;>
      · simp only [Option.some.injEq] at h
        subst h
        exact ⟨hs, rfl⟩
  | newTicker i => rw [step_newTicker_m h]; exact ⟨hs, rfl⟩
  | tick i => rw [step_tick_m h]; exact ⟨hs, rfl⟩
  | loopSelect i pick => rw [step_loopSelect_m h]; exact ⟨hs, rfl⟩
  | cas i => rw [step_cas_m h]; exact ⟨hs, rfl⟩
  | fnReturn i => rw [step_fnReturn_m h]; exact ⟨hs, rfl⟩
  | fnPanic i => rw [step_fnPanic_m h]; exact ⟨hs, rfl⟩
  | store i => rw [step_store_m h]; exact ⟨hs, rfl⟩

theorem run_frozen {s s1 : State} (ls : List Label) (hs : s.m.started = true)
    (h : run s ls = some s1) : s1.m.started = true ∧ s1.m.workers = s.m.workers := by
  induction ls generalizing s with
  | nil =>
    simp only [run, Option.some.injEq] at h
    subst h
    exact ⟨hs, rfl⟩
  | cons l ls ih =>
    simp only [run] at h
    rcases hst : step s l with _ | s2
    · simp [hst] at h
    · simp only [hst] at h
      have h1 := step_frozen hs hst
      have h2 := ih h1.1 h
      exact ⟨h2.1, h2.2.trans h1.2⟩

theorem Start_started (s : State) : (Manager.Start s).m.started = true := by
  unfold Manager.Start
  by_cases hs : s.m.started = true
  · simp [hs]
  · simp [hs, foldl_workerStart, State.logf]

theorem Start_workers (s : State) : (Manager.Start s).m.workers = s.m.workers := by
  unfold Manager.Start
  by_cases hs : s.m.started = true
  · simp [hs]
  · simp [hs, foldl_workerStart, State.logf]

theorem stateCreated_reachable : Reachable stateCreated := ⟨none, traceCreated, by rfl⟩


theorem Start_of_started (s : State) (h : s.m.started = true) : Manager.Start s = s := by
  unfold Manager.Start
  rw [if_pos h]

theorem Start_idem (s : State) : Manager.Start (Manager.Start s) = Manager.Start s :=
  Start_of_started _ (Start_started s)

theorem Start_iterate (s : State) (k : Nat) (hk : 1 ≤ k) :
    Manager.Start^[k] s = Manager.Start s := by
  induction k with
  | zero => omega
  | succ n ih =>
    cases n with
    | zero => rfl
    | succ m =>
      rw [Function.iterate_succ_apply', ih (by omega), Start_idem]

theorem stateClosed_reachable : Reachable stateClosed := ⟨none, traceClosed, by rfl⟩

theorem Inv.all_exited {s : State} (hI : Inv s) (h : s.wg = 0) :
    ∀ f ∈ s.flows, f.pc = FlowPc.exited := by
  intro f hf
  by_contra hp
  obtain ⟨i, hi⟩ := List.getElem?_of_mem hf
  have := hI.wg_pos hi hp
  omega

theorem Inv.flows_length {s : State} (hI : Inv s) (hs : s.m.started = true) :
    s.flows.length = s.m.workers.length := by
  have := congrArg List.length hI.flows_w
  simpa [hs] using this

theorem stateTick_reachable : Reachable stateTick := ⟨none, traceTick, by rfl⟩

theorem errorsIs_stopError : errorsIs stopError ErrWorkersStoppedForcibly = true := by
  simp [errorsIs, stopError, ErrWorkersStoppedForcibly]

theorem Stop_select_outcome (s : State) (ctxDone pick : Bool) :
    (Manager.Stop_select s ctxDone pick).map Prod.snd =
      (select2 s.m.allWorkersStopped ctxDone pick).map
        (fun second => if second then some stopError else none) := by
  unfold Manager.Stop_select
  rcases select2 s.m.allWorkersStopped ctxDone pick with _ | b
  · rfl
  · cases b <;> rfl

theorem wgDone_flows (s : State) : (wgDone s).flows = s.flows := by
  unfold wgDone
  split <;> rfl

theorem wgDone_invocations (s : State) : (wgDone s).invocations = s.invocations := by
  unfold wgDone
  split <;> rfl

theorem step_ctxDone {s s1 : State} {l : Label} (hc : s.m.ctxDone = true)
    (h : step s l = some s1) : s1.m.ctxDone = true := by
  cases l with
  | callEvery interval fn =>
    simp only [step, step_crashed h, Bool.false_eq_true, if_false, Manager.Every,
      Option.some.injEq] at h
    subst h
    split <;> exact hc
  | callStart =>
    simp only [step, step_crashed h, Bool.false_eq_true, if_false, Option.some.injEq] at h
    subst h
    unfold Manager.Start
    split
    · exact hc
    · simpa [foldl_workerStart, State.logf] using hc
  | callStop =>
    simp only [step, step_crashed h, Bool.false_eq_true, if_false, Manager.Stop_enter] at h
    split_ifs at h <;>
    · simp only [Option.some.injEq] at h
      subst h
      first
      | exact hc
      | rfl
  | stopSelect ctxDone pick =>
    simp only [step, step_crashed h, Bool.false_eq_true, if_false] at h
    split at h
    · exact absurd h (by simp)
    · unfold Manager.Stop_select at h
      rcases hsel : select2 s.m.allWorkersStopped ctxDone pick with _ | b
      · simp [hsel] at h
      · cases b <;>
        · simp only [hsel, Option.some.injEq] at h
          subst h
          exact hc
  | wgWait j =>
    simp only [step, step_crashed h, Bool.false_eq_true, if_false, coordStep] at h
    rcases hco : s.coordinators[j]? with _ | c
    · simp [hco] at h
    · simp only [hco] at h
      split_ifs at h
      simp only [Option.some.injEq] at h
      subst h
      exact hc
  | closeSignal j =>
    simp only [step, step_crashed h, Bool.false_eq_true, if_false, coordStep] at h
    rcases hco : s.coordinators[j]? with _ | c
    · simp [hco] at h
    · simp only [hco] at h
      split_ifs at h <;>
      · simp only [Option.some.injEq] at h
        subst h
        exact hc
  | newTicker i => rw [step_newTicker_m h]; exact hc
  | tick i => rw [step_tick_m h]; exact hc
  | loopSelect i pick => rw [step_loopSelect_m h]; exact hc
  | cas i => rw [step_cas_m h]; exact hc
  | fnReturn i => rw [step_fnReturn_m h]; exact hc
  | fnPanic i => rw [step_fnPanic_m h]; exact hc
  | store i => rw [step_store_m h]; exact hc

theorem stepD_tick_inFn (interval : Nat) (p flag : Bool) (r k : Nat) :
    stepD (loopState interval FlowPc.inFn p flag r k) (Label.tick 0) =
      loopState interval FlowPc.inFn true flag r k := by
  simp [stepD, step, flowTick, State.setFlow, loopState]

theorem stepD_tick_atSelect (interval : Nat) (p flag : Bool) (r k : Nat) :
    stepD (loopState interval FlowPc.atSelect p flag r k) (Label.tick 0) =
      loopState interval FlowPc.atSelect true flag r k := by
  simp [stepD, step, flowTick, State.setFlow, loopState]

theorem stepD_return_store (interval : Nat) (p flag : Bool) (r k : Nat) :
    stepD (stepD (loopState interval FlowPc.inFn p flag r k) (Label.fnReturn 0))
        (Label.store 0) =
      loopState interval FlowPc.atSelect p false r k := by
  simp [stepD, step, flowStep, flowStore, State.setFlow, loopState]

theorem stepD_receive_call (interval : Nat) (r k : Nat) :
    stepD (stepD (loopState interval FlowPc.atSelect true false r k) (Label.loopSelect 0 true))
        (Label.cas 0) =
      loopState interval FlowPc.inFn false true (r + 1) (k + 1) := by
  simp [stepD, step, flowStep, flowSelect, flowCAS, select2, State.setFlow, loopState]

theorem stepD_wait (interval : Nat) (r k : Nat) :
    stepD (stepD (loopState interval FlowPc.atSelect false false r k) (Label.loopSelect 0 true))
        (Label.cas 0) =
      loopState interval FlowPc.atSelect false false r k := by
  simp [stepD, step, flowStep, flowSelect, flowCAS, select2, State.setFlow, loopState]

theorem stepD_busy (interval : Nat) (p flag : Bool) (r k : Nat) :
    stepD (stepD (loopState interval FlowPc.inFn p flag r k) (Label.loopSelect 0 true))
        (Label.cas 0) =
      loopState interval FlowPc.inFn p flag r k := by
  simp [stepD, step, flowStep, flowSelect, flowCAS, select2, State.setFlow, loopState]

theorem flowProgress_busy_wait (interval dur : Nat) (p : Bool) (n now T e : Nat)
    (times : List Nat) (h : e ≠ now) :
    (busySim interval p n now T e times).flowProgress dur = busySim interval p n now T e times := by
  simp [Sim.flowProgress, busySim, h, stepD_busy]

theorem flowProgress_busy_due (interval dur : Nat) (n T e : Nat) (times : List Nat) :
    (busySim interval true n e T e times).flowProgress dur =
      busySim interval false (n + 1) e T (e + dur) (times ++ [e]) := by
  simp [Sim.flowProgress, busySim, stepD_return_store, stepD_receive_call]
  simp [loopState]

theorem tickerFire_busy_eq (interval : Nat) (p : Bool) (n T e : Nat) (times : List Nat) :
    (busySim interval p n T T e times).tickerFire interval =
      busySim interval true n T (T + interval) e times := by
  simp [Sim.tickerFire, busySim, stepD_tick_inFn]

theorem tickerFire_busy_ne (interval : Nat) (p : Bool) (n now T e : Nat) (times : List Nat)
    (h : now ≠ T) :
    (busySim interval p n now T e times).tickerFire interval =
      busySim interval p n now T e times := by
  simp [Sim.tickerFire, busySim, h]

theorem nextEvent_busy (interval : Nat) (p : Bool) (n now T e : Nat) (times : List Nat) :
    (busySim interval p n now T e times).nextEvent = min e T := by
  simp [Sim.nextEvent, busySim]

theorem advance_busy (tickFirst : Bool) (interval dur : Nat) (hI : 0 < interval)
    (hD : interval < dur) (p : Bool) (n now T e : Nat) (times : List Nat)
    (h1 : now < T) (h2 : T ≤ now + interval) (h3 : now < e) (h4 : p = false → T < e) :
    ∃ (p1 : Bool) (n1 T1 e1 : Nat) (times1 : List Nat),
      (busySim interval p n now T e times).advance tickFirst interval dur =
        busySim interval p1 n1 (min e T) T1 e1 times1 ∧
      min e T < T1 ∧ T1 ≤ min e T + interval ∧ min e T < e1 ∧ (p1 = false → T1 < e1) ∧
      ((T < e ∧ n1 = n ∧ e1 = e ∧ times1 = times) ∨
       (e ≤ T ∧ n1 = n + 1 ∧ e1 = e + dur ∧ times1 = times ++ [e])) := by
  have hadv : (busySim interval p n now T e times).advance tickFirst interval dur =
      if tickFirst then
        ((busySim interval p n (min e T) T e times).tickerFire interval).flowProgress dur
      else
        (((busySim interval p n (min e T) T e times).flowProgress dur).tickerFire
          interval).flowProgress dur := by
    simp [Sim.advance, Sim.nextEvent, busySim]
  rw [hadv]
  rcases Nat.lt_trichotomy T e with hlt | heq | hgt
  · -- the ticker fires while fn is executing
    have hm : min e T = T := by omega
    rw [hm]
    refine ⟨true, n, T + interval, e, times, ?_, by omega, by omega, hlt, by simp,
      Or.inl ⟨hlt, rfl, rfl, rfl⟩⟩
    have hne : e ≠ T := by omega
    cases tickFirst
    · simp only [Bool.false_eq_true, if_false]
      rw [flowProgress_busy_wait _ _ _ _ _ _ _ _ hne, tickerFire_busy_eq,
        flowProgress_busy_wait _ _ _ _ _ _ _ _ hne]
    · simp only [if_true]
      rw [tickerFire_busy_eq, flowProgress_busy_wait _ _ _ _ _ _ _ _ hne]
  · -- fn returns at the instant the ticker fires
    subst heq
    have hp : p = true := by
      cases p
      · exact absurd (h4 rfl) (by omega)
      · rfl
    subst hp
    have hm : min T T = T := by omega
    rw [hm]
    have hne : T + dur ≠ T := by omega
    cases tickFirst
    · simp only [Bool.false_eq_true, if_false]
      refine ⟨true, n + 1, T + interval, T + dur, times ++ [T], ?_, by omega, by omega, by omega,
        by simp, Or.inr ⟨le_refl _, rfl, rfl, rfl⟩⟩
      rw [flowProgress_busy_due, tickerFire_busy_eq, flowProgress_busy_wait _ _ _ _ _ _ _ _ hne]
    · simp only [if_true]
      refine ⟨false, n + 1, T + interval, T + dur, times ++ [T], ?_, by omega, by omega, by omega,
        by intro _; omega, Or.inr ⟨le_refl _, rfl, rfl, rfl⟩⟩
      rw [tickerFire_busy_eq, flowProgress_busy_due]
  · -- fn returns before the next tick
    have hp : p = true := by
      cases p
      · exact absurd (h4 rfl) (by omega)
      · rfl
    subst hp
    have hm : min e T = e := by omega
    rw [hm]
    have hne : e + dur ≠ e := by omega
    have hne2 : e ≠ T := by omega
    refine ⟨false, n + 1, T, e + dur, times ++ [e], ?_, hgt, by omega, by omega,
      by intro _; omega, Or.inr ⟨by omega, rfl, rfl, rfl⟩⟩
    cases tickFirst
    · simp only [Bool.false_eq_true, if_false]
      rw [flowProgress_busy_due, tickerFire_busy_ne _ _ _ _ _ _ _ hne2,
        flowProgress_busy_wait _ _ _ _ _ _ _ _ hne]
    · simp only [if_true]
      rw [tickerFire_busy_ne _ _ _ _ _ _ _ hne2, flowProgress_busy_due]

theorem init_st (interval : Nat) (h : 0 < interval) :
    (Sim.init interval).st = loopState interval FlowPc.atSelect false false 0 0 := by
  have h1 : ¬ ((interval : Int) ≤ 0) := by omega
  simp [Sim.init, stepD, step, Manager.Start, Manager.Every, NewManager, State.logf,
    worker.Start, flowStep, flowNewTicker, State.setFlow, loopState, h1]

theorem advance_init (tickFirst : Bool) (interval dur : Nat) (hI : 0 < interval) :
    (Sim.init interval).advance tickFirst interval dur =
      busySim interval false 1 interval (interval + interval) (interval + dur) [interval] := by
  have hst := init_st interval hI
  have hx : Sim.init interval =
      { st := loopState interval FlowPc.atSelect false false 0 0, now := 0,
        nextTick := interval, fnEnd := none, begun := [] } := by
    rw [← hst]
    rfl
  rw [hx]
  have h0 : ¬ (0 = interval) := by omega
  cases tickFirst
  · simp [Sim.advance, Sim.nextEvent, Sim.flowProgress, Sim.tickerFire, stepD_wait,
      stepD_tick_atSelect, stepD_receive_call, busySim]
    simp [loopState]
  · simp [Sim.advance, Sim.nextEvent, Sim.flowProgress, Sim.tickerFire, stepD_wait,
      stepD_tick_atSelect, stepD_receive_call, busySim]
    simp [loopState]

theorem simulate_succ (tickFirst : Bool) (interval dur horizon fuel : Nat) (x : Sim) :
    simulate tickFirst interval dur horizon (fuel + 1) x =
      if x.nextEvent < horizon then
        simulate tickFirst interval dur horizon fuel (x.advance tickFirst interval dur)
      else x := rfl

theorem simulate_busy (tickFirst : Bool) (interval dur horizon : Nat) (hI : 0 < interval)
    (hD : interval < dur) :
    ∀ (fuel : Nat) (p : Bool) (n now T e : Nat) (times : List Nat),
      now < T → T ≤ now + interval → now < e → (p = false → T < e) →
      horizon ≤ now + fuel → e = interval + n * dur →
      times = (List.range n).map (fun k => interval + k * dur) →
      (∀ k, k < n → interval + k * dur < horizon) →
      ∃ m, (simulate tickFirst interval dur horizon fuel
              (busySim interval p n now T e times)).begun =
            (List.range m).map (fun k => interval + k * dur) ∧
          (∀ k, k < m → interval + k * dur < horizon) ∧ horizon ≤ interval + m * dur := by
  intro fuel
  induction fuel with
  | zero =>
    intro p n now T e times _ _ h3 _ h5 h6 h7 h8
    refine ⟨n, ?_, h8, by omega⟩
    simp [simulate, busySim, h7]
  | succ fuel ih =>
    intro p n now T e times h1 h2 h3 h4 h5 h6 h7 h8
    by_cases hev : min e T < horizon
    · have hsim : simulate tickFirst interval dur horizon (fuel + 1)
            (busySim interval p n now T e times) =
          simulate tickFirst interval dur horizon fuel
            ((busySim interval p n now T e times).advance tickFirst interval dur) := by
        rw [simulate_succ, nextEvent_busy, if_pos hev]
      rw [hsim]
      obtain ⟨p1, n1, T1, e1, times1, hadv, g1, g2, g3, g4, hcase⟩ :=
        advance_busy tickFirst interval dur hI hD p n now T e times h1 h2 h3 h4
      rw [hadv]
      have hnow : now < min e T := by omega
      rcases hcase with ⟨_, hn, he, ht⟩ | ⟨hle, hn, he, ht⟩
      · subst hn he ht
        exact ih p1 n1 (min e1 T) T1 e1 times1 g1 g2 g3 g4 (by omega) h6 h7 h8
      · subst hn he ht
        refine ih p1 (n + 1) (min e T) T1 (e + dur) (times ++ [e]) g1 g2 g3 g4 (by omega) ?_ ?_ ?_
        · rw [h6, Nat.add_mul]
          omega
        · rw [List.range_succ, List.map_append, h7, h6]
          rfl
        · intro k hk
          by_cases hkn : k < n
          · exact h8 k hkn
          · have : k = n := by omega
            subst this
            have : min e T = e := by omega
            omega
    · refine ⟨n, ?_, h8, ?_⟩
      · rw [simulate_succ, nextEvent_busy, if_neg hev, h7]
        rfl
      · have : horizon ≤ e := by omega
        omega

theorem invocationTimes_spec (tickFirst : Bool) (interval dur horizon : Nat)
    (hI : 0 < interval) (hD : interval < dur) :
    ∃ m, invocationTimes tickFirst interval dur horizon =
          (List.range m).map (fun k => interval + k * dur) ∧
        (∀ k, k < m → interval + k * dur < horizon) ∧ horizon ≤ interval + m * dur := by
  unfold invocationTimes
  have hne : (Sim.init interval).nextEvent = interval := by
    simp [Sim.init, Sim.nextEvent]
  cases horizon with
  | zero =>
    refine ⟨0, ?_, by simp, by omega⟩
    simp [simulate, Sim.init]
  | succ h =>
    by_cases hev : interval < h + 1
    · have hsim : simulate tickFirst interval dur (h + 1) (h + 1) (Sim.init interval) =
          simulate tickFirst interval dur (h + 1) h
            ((Sim.init interval).advance tickFirst interval dur) := by
        rw [simulate_succ, hne, if_pos hev]
      rw [hsim, advance_init tickFirst interval dur hI]
      refine simulate_busy tickFirst interval dur (h + 1) hI hD h false 1 interval
        (interval + interval) (interval + dur) [interval] (by omega) (by omega) (by omega)
        (by intro _; omega) (by omega) (by omega) (by simp [List.range_succ]) ?_
      intro k hk
      have : k = 0 := by omega
      subst this
      omega
    · refine ⟨0, ?_, by simp, by omega⟩
      rw [simulate_succ, hne, if_neg hev]
      rfl

theorem count_closed_form (interval dur horizon m : Nat) (hD : 0 < dur)
    (h1 : ∀ k, k < m → interval + k * dur < horizon) (h2 : horizon ≤ interval + m * dur) :
    (horizon - interval + dur - 1) / dur = m := by
  apply Nat.div_eq_of_lt_le
  · cases m with
    | zero => simp
    | succ j =>
      have := h1 j (by omega)
      rw [Nat.add_mul]
      omega
  · rw [Nat.succ_mul]
    omega

theorem step_fnReturn_eq {t : State} {j : Nat} {g : Flow} (hcr : t.crashed = false)
    (hg : t.flows[j]? = some g) (hp : g.pc = FlowPc.inFn) :
    step t (Label.fnReturn j) = some (t.setFlow j { g with pc := FlowPc.atStore }) := by
  simp [step, hcr, flowStep, hg, hp]

theorem step_store_eq {t : State} {j : Nat} {g : Flow} (wk : worker) (hcr : t.crashed = false)
    (hg : t.flows[j]? = some g) (hp : g.pc = FlowPc.atStore) (hw : t.heap[g.w]? = some wk) :
    step t (Label.store j) =
      some { t.setFlow j { g with pc := FlowPc.atSelect } with
             heap := t.heap.set g.w { wk with prevOperationInProgress := false } } := by
  simp [step, hcr, flowStep, hg, hp, flowStore, hw]

theorem step_cas_eq {t : State} {j : Nat} {g : Flow} (wk : worker) (hcr : t.crashed = false)
    (hg : t.flows[j]? = some g) (hp : g.pc = FlowPc.atCAS) (hw : t.heap[g.w]? = some wk)
    (hfl : wk.prevOperationInProgress = false) :
    step t (Label.cas j) =
      some { t.setFlow j { g with pc := FlowPc.inFn } with
             heap := t.heap.set g.w { wk with prevOperationInProgress := true },
             invocations := t.invocations + 1 } := by
  simp [step, hcr, flowStep, hg, hp, flowCAS, hw, hfl]

theorem step_loopSelect_tick {t : State} {j : Nat} {g : Flow} {p : Bool}
    (hcr : t.crashed = false) (hg : t.flows[j]? = some g) (hp : g.pc = FlowPc.atSelect)
    (hsel : select2 t.m.ctxDone g.tickerC p = some true) :
    step t (Label.loopSelect j p) =
      some { t.setFlow j { g with pc := FlowPc.atCAS, tickerC := false } with
             ticksReceived := t.ticksReceived + 1 } := by
  simp [step, hcr, flowStep, hg, hp, flowSelect, hsel]

theorem step_loopSelect_done {t : State} {j : Nat} {g : Flow} {p : Bool}
    (hcr : t.crashed = false) (hg : t.flows[j]? = some g) (hp : g.pc = FlowPc.atSelect)
    (hsel : select2 t.m.ctxDone g.tickerC p = some false) :
    step t (Label.loopSelect j p) =
      some (wgDone (t.setFlow j { g with pc := FlowPc.exited })) := by
  simp [step, hcr, flowStep, hg, hp, flowSelect, hsel]

theorem run_two {t t1 t2 : State} {a b : Label} (h1 : step t a = some t1)
    (h2 : step t1 b = some t2) : run t [a, b] = some t2 := by
  simp only [run, h1, h2]

theorem run_three {t t1 t2 t3 : State} {a b c : Label} (h1 : step t a = some t1)
    (h2 : step t1 b = some t2) (h3 : step t2 c = some t3) : run t [a, b, c] = some t3 := by
  simp only [run, h1, h2, h3]

theorem setFlow_get {t : State} {j : Nat} {g : Flow} (hg : t.flows[j]? = some g) (f : Flow) :
    (t.setFlow j f).flows[j]? = some f := by
  have hlt : j < t.flows.length := (List.getElem?_eq_some.mp hg).1
  simp [State.setFlow, hlt]

/-- After cancellation an invocation in flight runs on: fn returns, the
Store follows, and the goroutine is back at its select with nothing invoked in
between. -/
theorem inFlight_back_to_select {t : State} {j : Nat} {g : Flow} (hr : Reachable t)
    (hcr : t.crashed = false) (hg : t.flows[j]? = some g) (hp : g.pc = FlowPc.inFn) :
    ∃ t2, run t [Label.fnReturn j, Label.store j] = some t2 ∧
      t2.flows[j]? = some { g with pc := FlowPc.atSelect } ∧
      t2.invocations = t.invocations ∧ t2.ticksReceived = t.ticksReceived ∧
      t2.m = t.m ∧ t2.crashed = false := by
  obtain ⟨wk, hw⟩ := (Inv_of_Reachable hr).heap_at hg
  have h1 := step_fnReturn_eq hcr hg hp
  have hg1 := setFlow_get hg { g with pc := FlowPc.atStore }
  have h2 := step_store_eq (t := t.setFlow j { g with pc := FlowPc.atStore }) wk
    hcr hg1 rfl hw
  refine ⟨_, run_two h1 h2, ?_, rfl, rfl, rfl, hcr⟩
  have hlt : j < t.flows.length := (List.getElem?_eq_some.mp hg).1
  simp [State.setFlow, hlt]

/-- After cancellation a tick pending at the select can be picked, and then
the CompareAndSwap succeeds and an invocation of fn begins. -/
theorem pending_tick_invokes {t : State} {j : Nat} {g : Flow} (hr : Reachable t)
    (hc : t.m.ctxDone = true) (hcr : t.crashed = false) (hg : t.flows[j]? = some g)
    (hp : g.pc = FlowPc.atSelect) (htk : g.tickerC = true) :
    ∃ t2, run t [Label.loopSelect j true, Label.cas j] = some t2 ∧
      t2.flows[j]? = some { g with pc := FlowPc.inFn, tickerC := false } ∧
      t2.invocations = t.invocations + 1 ∧ t2.m.ctxDone = true := by
  have hI := Inv_of_Reachable hr
  obtain ⟨wk, hw⟩ := hI.heap_at hg
  have hfl := hI.flag_false hg hw (by simp [hp]) (by simp [hp])
  have hsel : select2 t.m.ctxDone g.tickerC true = some true := by
    rw [hc, htk]
    rfl
  have h1 := step_loopSelect_tick hcr hg hp hsel
  have hg1 := setFlow_get hg { g with pc := FlowPc.atCAS, tickerC := false }
  have h2 := step_cas_eq
    (t := { t.setFlow j { g with pc := FlowPc.atCAS, tickerC := false } with
            ticksReceived := t.ticksReceived + 1 })
    wk hcr hg1 rfl hw hfl
  refine ⟨_, run_two h1 h2, ?_, rfl, hc⟩
  have hlt : j < t.flows.length := (List.getElem?_eq_some.mp hg).1
  simp [State.setFlow, hlt]

/-- After cancellation an invocation in flight with no tick buffered runs to
completion and the goroutine then returns, whatever the select picks, with
nothing invoked. -/
theorem inFlight_then_exit {t : State} {j : Nat} {g : Flow} (p : Bool) (hr : Reachable t)
    (hc : t.m.ctxDone = true) (hcr : t.crashed = false) (hg : t.flows[j]? = some g)
    (hp : g.pc = FlowPc.inFn) (htk : g.tickerC = false) :
    ∃ t3, run t [Label.fnReturn j, Label.store j, Label.loopSelect j p] = some t3 ∧
      t3.flows[j]? = some { g with pc := FlowPc.exited } ∧
      t3.invocations = t.invocations := by
  obtain ⟨wk, hw⟩ := (Inv_of_Reachable hr).heap_at hg
  have hlt : j < t.flows.length := (List.getElem?_eq_some.mp hg).1
  have h1 := step_fnReturn_eq hcr hg hp
  have hg1 := setFlow_get hg { g with pc := FlowPc.atStore }
  have h2 := step_store_eq (t := t.setFlow j { g with pc := FlowPc.atStore }) wk
    hcr hg1 rfl hw
  have hg2 : ({ (t.setFlow j { g with pc := FlowPc.atStore }).setFlow j
        { g with pc := FlowPc.atSelect } with
      heap := t.heap.set g.w { wk with prevOperationInProgress := false } } : State).flows[j]? =
      some { g with pc := FlowPc.atSelect } := by
    simp [State.setFlow, hlt]
  have hsel : select2 t.m.ctxDone g.tickerC p = some false := by
    rw [hc, htk]
    rfl
  have h3 := step_loopSelect_done
    (t := { (t.setFlow j { g with pc := FlowPc.atStore }).setFlow j
        { g with pc := FlowPc.atSelect } with
      heap := t.heap.set g.w { wk with prevOperationInProgress := false } })
    (g := { g with pc := FlowPc.atSelect }) (p := p) hcr hg2 rfl hsel
  refine ⟨_, run_three h1 h2 h3, ?_, ?_⟩
  · rw [wgDone_flows]
    simp [State.setFlow, hlt]
  · rw [wgDone_invocations]
    rfl

/-! ## The claims -/

/-- C1: in every reachable state, for every worker at most one invocation of
its fn has begun and not returned. -/
theorem C1_non_overlap (s : State) (h : Reachable s) (p : Nat) : inFlight s p ≤ 1 := by
  have hI := Inv_of_Reachable h
  unfold inFlight
  rw [← List.countP_eq_length_filter]
  refine le_trans ?_ (countP_le_one_of_range hI p)
  apply List.countP_mono_left
  intro f _ hf
  simp only [Bool.and_eq_true, decide_eq_true_eq] at hf
  simpa using hf.1

theorem C1_non_overlap_witness : inFlight stateBusy 0 = 1 ∧ inFlight stateBusy 0 ≤ 1 :=
  ⟨by decide, C1_non_overlap stateBusy stateBusy_reachable 0⟩

/-- C2 as stated fails: with interval 100 and a fn that lasts 250 the
invocations begin at 100, 350, 600 and 850, not at 100, 400 and 700, and four
of them begin during the first second, whichever of tick and return is
handled first when both fall on one instant. -/
theorem C2_counterexample :
    invocationTimes true 100 250 1000 = [100, 350, 600, 850] ∧
    invocationTimes false 100 250 1000 = [100, 350, 600, 850] ∧
    invocationTimes true 100 250 1000 ≠ [100, 400, 700] ∧
    (invocationTimes true 100 250 1000).length ≠ 3 := by
  refine ⟨by decide, by decide, by decide, by decide⟩

/-- C2 amended: for a worker of interval I whose fn lasts D > I, the first
tick that fires while fn executes is buffered in the ticker channel and is
received as soon as fn returns, so the invocations begin at I, I + D,
I + 2D, ...: the invocations begun before `horizon` are exactly the instants
I + k * D below it, whichever of tick and return is handled first at a
common instant. -/
theorem C2_schedule (tickFirst : Bool) (interval dur horizon : Nat)
    (hI : 0 < interval) (hD : interval < dur) :
    invocationTimes tickFirst interval dur horizon =
      (List.range ((horizon - interval + dur - 1) / dur)).map (fun k => interval + k * dur) ∧
    (∀ t, t ∈ invocationTimes tickFirst interval dur horizon ↔
      t < horizon ∧ ∃ k, t = interval + k * dur) := by
  obtain ⟨m, hm, h1, h2⟩ := invocationTimes_spec tickFirst interval dur horizon hI hD
  have hc := count_closed_form interval dur horizon m (by omega) h1 h2
  refine ⟨by rw [hc, hm], ?_⟩
  intro t
  rw [hm]
  simp only [List.mem_map, List.mem_range]
  constructor
  · rintro ⟨k, hk, rfl⟩
    exact ⟨h1 k hk, k, rfl⟩
  · rintro ⟨ht, k, rfl⟩
    refine ⟨k, ?_, rfl⟩
    by_contra hk
    have hmk : m * dur ≤ k * dur := Nat.mul_le_mul_right dur (by omega)
    omega

theorem C2_schedule_witness :
    invocationTimes true 100 250 1000 =
      (List.range ((1000 - 100 + 250 - 1) / 250)).map (fun k => 100 + k * 250) ∧
    (List.range ((1000 - 100 + 250 - 1) / 250)).map (fun k => 100 + k * 250) =
      [100, 350, 600, 850] :=
  ⟨(C2_schedule true 100 250 1000 (by decide) (by decide)).1, by decide⟩

/-- C3: Every returns an error exactly when started is set, the error is
ErrCallMethodEveryAfterStart, and before Start it returns nil for every
interval (zero and negative included) and every fn. -/
theorem C3_Every_error_iff_started (s : State) (interval : Duration) (fn : FnId) :
    ((Manager.Every s interval fn).2 ≠ none ↔ s.m.started = true) ∧
    (Manager.Every s interval fn).2 =
      (if s.m.started then some ErrCallMethodEveryAfterStart else none) := by
  unfold Manager.Every
  by_cases hs : s.m.started = true <;> simp [hs]

/-- C4: after the first Start the worker set is frozen: whatever calls and
goroutine steps follow, started stays true, the workers list stays the one
held at Start, and every Every returns ErrCallMethodEveryAfterStart without
changing the state. -/
theorem C4_workers_frozen_after_Start (s0 s1 : State) (ls : List Label)
    (h : run (Manager.Start s0) ls = some s1) :
    s1.m.started = true ∧ s1.m.workers = s0.m.workers ∧
    ∀ (interval : Duration) (fn : FnId),
      Manager.Every s1 interval fn = (s1, some ErrCallMethodEveryAfterStart) := by
  have h1 := run_frozen ls (Start_started s0) h
  refine ⟨h1.1, h1.2.trans (Start_workers s0), ?_⟩
  intro interval fn
  simp [Manager.Every, h1.1]

theorem C4_workers_frozen_after_Start_witness :
    stateAfterStart.m.workers = [0] ∧ stateAfterStart.m.allWorkersStopped = true ∧
    Manager.Every stateAfterStart 1 4 = (stateAfterStart, some ErrCallMethodEveryAfterStart) :=
  ⟨by decide, by decide,
   (C4_workers_frozen_after_Start (Manager.Every (NewManager none) 5 1).1 stateAfterStart
      traceAfterStart (by rfl)).2.2 1 4⟩

/-- C5 as stated fails: a started Manager with no worker has its completion
signal closed, and a Stop whose ctx is already done can still return the
error. -/
theorem C5_counterexample :
    stateIdleClosed.m.started = true ∧ stateIdleClosed.m.allWorkersStopped = true ∧
    (Manager.Stop stateIdleClosed true true).2 = StopResult.returned (some stopError) := by
  refine ⟨by decide, by decide, by rfl⟩

/-- C5 amended: on a started Manager Stop cancels the shared context and then
resolves its select. It returns nil only if the completion signal is closed
at that moment, an error only if ctx is done at that moment, and the error
wraps ErrWorkersStoppedForcibly. With only the signal closed it returns nil,
with only ctx done the error, with neither it blocks, and with both ready
the result is the one the select picks. -/
theorem C5_Stop_outcome (s : State) (ctxDone pick : Bool) (hs : s.m.started = true) :
    (Manager.Stop s ctxDone pick).1.m.ctxDone = true ∧
    (Manager.Stop s ctxDone pick).2 =
      (match select2 s.m.allWorkersStopped ctxDone pick with
       | none => StopResult.blocked
       | some false => StopResult.returned none
       | some true => StopResult.returned (some stopError)) ∧
    ((Manager.Stop s ctxDone pick).2 = StopResult.returned none →
      s.m.allWorkersStopped = true) ∧
    (∀ e : GoError, (Manager.Stop s ctxDone pick).2 = StopResult.returned (some e) →
      ctxDone = true ∧ errorsIs e ErrWorkersStoppedForcibly = true) ∧
    (s.m.allWorkersStopped = true → ctxDone = false →
      (Manager.Stop s ctxDone pick).2 = StopResult.returned none) ∧
    (s.m.allWorkersStopped = false → ctxDone = true →
      (Manager.Stop s ctxDone pick).2 = StopResult.returned (some stopError)) ∧
    (s.m.allWorkersStopped = true → ctxDone = true →
      (Manager.Stop s ctxDone pick).2 =
        StopResult.returned (if pick then some stopError else none)) ∧
    (∀ t : State, (Manager.Stop_select t ctxDone pick).map Prod.snd =
      (select2 t.m.allWorkersStopped ctxDone pick).map
        (fun second => if second then some stopError else none)) := by
  have hst : (Manager.Stop s ctxDone pick).2 =
      (match select2 s.m.allWorkersStopped ctxDone pick with
       | none => StopResult.blocked
       | some false => StopResult.returned none
       | some true => StopResult.returned (some stopError)) := by
    simp only [Manager.Stop, Manager.Stop_enter, hs, Bool.not_true, Bool.false_eq_true, if_false,
      Manager.Stop_select]
    rcases select2 s.m.allWorkersStopped ctxDone pick with _ | b
    · rfl
    · cases b <;> rfl
  have hctx : (Manager.Stop s ctxDone pick).1.m.ctxDone = true := by
    simp only [Manager.Stop, Manager.Stop_enter, hs, Bool.not_true, Bool.false_eq_true, if_false,
      Manager.Stop_select]
    rcases select2 s.m.allWorkersStopped ctxDone pick with _ | b
    · rfl
    · cases b <;> rfl
  refine ⟨hctx, hst, ?_, ?_, ?_, ?_, ?_, fun t => Stop_select_outcome t ctxDone pick⟩
  · rw [hst]
    cases s.m.allWorkersStopped <;> cases ctxDone <;> cases pick <;> simp [select2]
  · rw [hst]
    intro e
    cases s.m.allWorkersStopped <;> cases ctxDone <;> cases pick <;> simp [select2] <;>
      · intro he
        rw [← he]
        exact errorsIs_stopError
  · rw [hst]
    intro h1 h2
    rw [h1, h2]
    cases pick <;> rfl
  · rw [hst]
    intro h1 h2
    rw [h1, h2]
    cases pick <;> rfl
  · rw [hst]
    intro h1 h2
    rw [h1, h2]
    cases pick <;> rfl

theorem C5_Stop_outcome_witness :
    (Manager.Stop stateIdleClosed false true).2 = StopResult.returned none :=
  (C5_Stop_outcome stateIdleClosed false true (by decide)).2.2.2.2.1 (by decide) rfl

/-- C6: Stop on a Manager that was never started returns nil at once for
every ctx and every pick, changes nothing but the log (context not cancelled,
started false, workers unchanged, nothing spawned), so a following Every
returns nil and a following Start spawns one goroutine per worker. -/
theorem C6_Stop_before_Start (s : State) (ctxDone pick : Bool) (h : Reachable s)
    (hs : s.m.started = false) :
    Manager.Stop s ctxDone pick =
      (s.logf LogLevel.Warn "You can not call <Stop> method before <Start>",
       StopResult.returned none) ∧
    (Manager.Stop s ctxDone pick).1.m.ctxDone = false ∧
    (Manager.Stop s ctxDone pick).1.m.started = false ∧
    (Manager.Stop s ctxDone pick).1.m.workers = s.m.workers ∧
    (Manager.Stop s ctxDone pick).1.m.allWorkersStopped = false ∧
    (Manager.Stop s ctxDone pick).1.heap = s.heap ∧
    (Manager.Stop s ctxDone pick).1.flows = [] ∧
    (Manager.Stop s ctxDone pick).1.coordinators = [] ∧
    (Manager.Stop s ctxDone pick).1.stopWaiting = 0 ∧
    (∀ (interval : Duration) (fn : FnId),
      (Manager.Every (Manager.Stop s ctxDone pick).1 interval fn).2 = none) ∧
    (Manager.Start (Manager.Stop s ctxDone pick).1).flows = s.m.workers.map spawned ∧
    (Manager.Start (Manager.Stop s ctxDone pick).1).coordinators = [CoordPc.atWait] := by
  have hI := Inv_of_Reachable h
  obtain ⟨_, h2, h3, h4, h5, _⟩ := hI.fresh hs
  have hf := hI.flows_nil hs
  have hstop : Manager.Stop s ctxDone pick =
      (s.logf LogLevel.Warn "You can not call <Stop> method before <Start>",
       StopResult.returned none) := by
    simp [Manager.Stop, Manager.Stop_enter, hs]
  rw [hstop]
  refine ⟨rfl, h2, hs, rfl, h5, rfl, hf, h3, h4, ?_, ?_, ?_⟩
  · intro interval fn
    simp [Manager.Every, State.logf, hs]
  · simp [Manager.Start, State.logf, hs, foldl_workerStart, hf]
  · simp [Manager.Start, State.logf, hs, foldl_workerStart, h3]

theorem C6_Stop_before_Start_witness :
    Manager.Stop stateCreated true true =
      (stateCreated.logf LogLevel.Warn "You can not call <Stop> method before <Start>",
       StopResult.returned none) ∧
    (Manager.Start (Manager.Stop stateCreated true true).1).flows = [spawned 0, spawned 1] :=
  ⟨(C6_Stop_before_Start stateCreated true true stateCreated_reachable (by rfl)).1,
   (C6_Stop_before_Start stateCreated true true stateCreated_reachable
      (by rfl)).2.2.2.2.2.2.2.2.2.2.1⟩

/-- C7: Start is idempotent. On a Manager that was not started, k >= 1 calls
of Start leave the state of one call: one goroutine per registered worker,
one coordinator, the wait group counting the workers; on every state a
second Start changes nothing; and in every reachable started state, whatever
calls and steps led to it, there are as many goroutines as workers and one
coordinator. -/
theorem C7_Start_idempotent (s : State) (k : Nat) (h : Reachable s)
    (hs : s.m.started = false) (hk : 1 ≤ k) :
    Manager.Start^[k] s = Manager.Start s ∧
    (Manager.Start^[k] s).flows = s.m.workers.map spawned ∧
    (Manager.Start^[k] s).flows.length = s.m.workers.length ∧
    (Manager.Start^[k] s).coordinators = [CoordPc.atWait] ∧
    (Manager.Start^[k] s).wg = s.m.workers.length ∧
    s.flows = [] ∧ s.coordinators = [] ∧
    (∀ t : State, Manager.Start (Manager.Start t) = Manager.Start t) ∧
    (∀ t : State, Reachable t → t.m.started = true →
      t.flows.length = t.m.workers.length ∧ t.coordinators.length = 1) := by
  have hI := Inv_of_Reachable h
  obtain ⟨_, _, h3, _, _, _⟩ := hI.fresh hs
  have hf := hI.flows_nil hs
  rw [Start_iterate s k hk]
  refine ⟨rfl, ?_, ?_, ?_, ?_, hf, h3, Start_idem, ?_⟩
  · simp [Manager.Start, State.logf, hs, foldl_workerStart, hf]
  · simp [Manager.Start, State.logf, hs, foldl_workerStart, hf]
  · simp [Manager.Start, State.logf, hs, foldl_workerStart, h3]
  · simp [Manager.Start, State.logf, hs, foldl_workerStart]
  · intro t ht hts
    have hIt := Inv_of_Reachable ht
    refine ⟨hIt.flows_length hts, ?_⟩
    rcases hIt.coord hts with h1 | h1 | h1 <;> simp [h1.1]

theorem C7_Start_idempotent_witness :
    Manager.Start^[3] stateCreated = Manager.Start stateCreated ∧
    (Manager.Start^[3] stateCreated).flows.length = 2 ∧
    (Manager.Start^[3] stateCreated).coordinators.length = 1 :=
  ⟨(C7_Start_idempotent stateCreated 3 stateCreated_reachable (by rfl) (by decide)).1,
   by decide, by decide⟩

/-- C8 as stated fails: the context is cancelled, no invocation has begun, a
tick is pending on the ticker channel; the select picks the tick and fn is
invoked after the cancellation. -/
theorem C8_counterexample :
    Reachable stateCancelled ∧ stateCancelled.m.ctxDone = true ∧
    stateCancelled.invocations = 0 ∧ inFlight stateCancelled 0 = 0 ∧
    (run stateCancelled [Label.loopSelect 0 true, Label.cas 0]).map
      (fun s => (s.m.ctxDone, s.invocations, inFlight s 0)) = some (true, 1, 1) := by
  refine ⟨⟨none, traceCancelled, by rfl⟩, by decide, by decide, by decide, by decide⟩

/-- C8 amended: once the shared context is cancelled it stays cancelled and
the select of a goroutine is never blocked. A goroutine that resolves its
select then: with no tick pending on its ticker channel, or when the select
picks the Done case, returns without invoking fn; with a tick pending the
select may pick the tick, and then the CompareAndSwap succeeds and one more
invocation of fn begins after the cancellation. An invocation in flight at
the cancellation runs on: fn returns, the Store follows and the goroutine is
back at its select with nothing invoked; with no tick buffered it then
returns, whatever the select picks. -/
theorem C8_after_cancellation (s s1 : State) (i : Nat) (pick : Bool)
    (hc : s.m.ctxDone = true) (h : step s (Label.loopSelect i pick) = some s1) :
    s1.m.ctxDone = true ∧
    (∃ f, s.flows[i]? = some f ∧ f.pc = FlowPc.atSelect ∧
      ((f.tickerC = false ∨ pick = false) →
        s1.flows[i]? = some { f with pc := FlowPc.exited } ∧
        s1.invocations = s.invocations ∧ s1.ticksReceived = s.ticksReceived) ∧
      ((f.tickerC = true ∧ pick = true) →
        s1.flows[i]? = some { f with pc := FlowPc.atCAS, tickerC := false } ∧
        s1.invocations = s.invocations ∧ s1.ticksReceived = s.ticksReceived + 1)) ∧
    (∀ (t t1 : State) (l : Label), t.m.ctxDone = true → step t l = some t1 →
      t1.m.ctxDone = true) ∧
    (∀ (t : State) (j : Nat) (g : Flow) (p : Bool), t.m.ctxDone = true → t.crashed = false →
      t.flows[j]? = some g → g.pc = FlowPc.atSelect →
      ∃ t1, step t (Label.loopSelect j p) = some t1) ∧
    (∀ (t : State) (j : Nat) (g : Flow), Reachable t → t.m.ctxDone = true →
      t.crashed = false → t.flows[j]? = some g → g.pc = FlowPc.inFn →
      ∃ t2, run t [Label.fnReturn j, Label.store j] = some t2 ∧
        t2.flows[j]? = some { g with pc := FlowPc.atSelect } ∧
        t2.invocations = t.invocations ∧ t2.ticksReceived = t.ticksReceived ∧
        t2.m.ctxDone = true ∧ t2.crashed = false) ∧
    (∀ (t : State) (j : Nat) (g : Flow) (p : Bool), Reachable t → t.m.ctxDone = true →
      t.crashed = false → t.flows[j]? = some g → g.pc = FlowPc.inFn → g.tickerC = false →
      ∃ t3, run t [Label.fnReturn j, Label.store j, Label.loopSelect j p] = some t3 ∧
        t3.flows[j]? = some { g with pc := FlowPc.exited } ∧
        t3.invocations = t.invocations) ∧
    (∀ (t : State) (j : Nat) (g : Flow), Reachable t → t.m.ctxDone = true →
      t.crashed = false → t.flows[j]? = some g → g.pc = FlowPc.atSelect →
      g.tickerC = true →
      ∃ t2, run t [Label.loopSelect j true, Label.cas j] = some t2 ∧
        t2.flows[j]? = some { g with pc := FlowPc.inFn, tickerC := false } ∧
        t2.invocations = t.invocations + 1 ∧ t2.m.ctxDone = true) := by
  refine ⟨step_ctxDone hc h, ?_, fun t t1 l ht hst => step_ctxDone ht hst, ?_, ?_, ?_, ?_⟩
  · have hcr := step_crashed h
    simp only [step, hcr, Bool.false_eq_true, if_false] at h
    obtain ⟨f, hf, hp, hk⟩ := flowStep_eq_some h
    have hlt : i < s.flows.length := (List.getElem?_eq_some.mp hf).1
    refine ⟨f, hf, hp, ?_, ?_⟩
    · intro hpick
      have hsel : select2 s.m.ctxDone f.tickerC pick = some false := by
        rw [hc]
        rcases hpick with hp1 | hp1
        · rw [hp1]
          rfl
        · rw [hp1]
          cases f.tickerC <;> rfl
      simp only [flowSelect, hsel, Option.some.injEq] at hk
      subst hk
      rw [wgDone_flows, wgDone_invocations]
      refine ⟨by simp [State.setFlow, hlt], rfl, ?_⟩
      unfold wgDone
      split <;> rfl
    · intro hpick
      have hsel : select2 s.m.ctxDone f.tickerC pick = some true := by
        rw [hc, hpick.1, hpick.2]
        rfl
      simp only [flowSelect, hsel, Option.some.injEq] at hk
      subst hk
      exact ⟨by simp [State.setFlow, hlt], rfl, rfl⟩
  · intro t j g p ht hcr hg hp
    simp only [step, hcr, Bool.false_eq_true, if_false, flowStep, hg, hp, if_true, flowSelect, ht]
    cases g.tickerC <;> cases p <;> simp [select2]
  · intro t j g hr ht hcr hg hp
    obtain ⟨t2, h1, h2, h3, h4, h5, h6⟩ := inFlight_back_to_select hr hcr hg hp
    exact ⟨t2, h1, h2, h3, h4, by rw [h5]; exact ht, h6⟩
  · intro t j g p hr ht hcr hg hp htk
    exact inFlight_then_exit p hr ht hcr hg hp htk
  · intro t j g hr ht hcr hg hp htk
    exact pending_tick_invokes hr ht hcr hg hp htk

theorem C8_after_cancellation_witness :
    (step stateCancelledIdle (Label.loopSelect 0 true)).map (fun s => s.flows) =
      some [{ w := 0, pc := FlowPc.exited, tickerC := false }] ∧
    ((step stateCancelledIdle (Label.loopSelect 0 true)).getD stateCancelledIdle).m.ctxDone =
      true ∧
    (run stateBusyCancelled [Label.fnReturn 0, Label.store 0, Label.loopSelect 0 true]).map
      (fun s => (s.flows, s.invocations)) =
      some ([{ w := 0, pc := FlowPc.exited, tickerC := false }], 1) :=
  ⟨by decide,
   (C8_after_cancellation stateCancelledIdle
      ((step stateCancelledIdle (Label.loopSelect 0 true)).getD stateCancelledIdle) 0 true
      (by decide) (by rfl)).1,
   by decide⟩

/-- C9: the completion signal. In every reachable state close has run at most
once; the channel is closed only when Start was called, the wait-group
counter is zero and every goroutine spawned by Start (one per worker) has
returned; it is never closed before Start; and close itself executes only in
such a state and for the first time. Start raises the counter once per
worker before it spawns the single coordinator. -/
theorem C9_completion_signal (s : State) (h : Reachable s) :
    s.closes ≤ 1 ∧
    (s.m.allWorkersStopped = true ↔ s.closes = 1) ∧
    (s.m.allWorkersStopped = true →
      s.m.started = true ∧ s.wg = 0 ∧ s.flows.length = s.m.workers.length ∧
      ∀ f ∈ s.flows, f.pc = FlowPc.exited) ∧
    (s.m.started = false → s.m.allWorkersStopped = false ∧ s.closes = 0) ∧
    (∀ (j : Nat) (s1 : State), step s (Label.closeSignal j) = some s1 →
      s.m.started = true ∧ s.wg = 0 ∧ (∀ f ∈ s.flows, f.pc = FlowPc.exited) ∧
      s.closes = 0 ∧ s1.closes = 1 ∧ s1.m.allWorkersStopped = true ∧ s1.crashed = false) ∧
    (s.m.started = false →
      (Manager.Start s).wg = s.m.workers.length ∧
      (Manager.Start s).coordinators = [CoordPc.atWait]) := by
  have hI := Inv_of_Reachable h
  have hphase : s.m.started = false ∨ s.m.started = true := by
    cases s.m.started <;> simp
  refine ⟨?_, ?_, ?_, ?_, ?_, ?_⟩
  · rcases hphase with hs | hs
    · have := (hI.fresh hs).2.2.2.2.2
      omega
    · rcases hI.coord hs with h1 | h1 | h1 <;> omega
  · rcases hphase with hs | hs
    · obtain ⟨_, _, _, _, h5, h6⟩ := hI.fresh hs
      simp [h5, h6]
    · rcases hI.coord hs with h1 | h1 | h1
      · simp [h1.2.1, h1.2.2]
      · simp [h1.2.1, h1.2.2.1]
      · simp [h1.2.1, h1.2.2.1]
  · intro hc
    rcases hphase with hs | hs
    · have := (hI.fresh hs).2.2.2.2.1
      rw [this] at hc
      exact absurd hc (by simp)
    · rcases hI.coord hs with h1 | h1 | h1
      · rw [h1.2.2] at hc
        exact absurd hc (by simp)
      · rw [h1.2.2.1] at hc
        exact absurd hc (by simp)
      · exact ⟨hs, h1.2.2.2, hI.flows_length hs, hI.all_exited h1.2.2.2⟩
  · intro hs
    obtain ⟨_, _, _, _, h5, h6⟩ := hI.fresh hs
    exact ⟨h5, h6⟩
  · intro j s1 hst
    have hcr := step_crashed hst
    simp only [step, hcr, Bool.false_eq_true, if_false, coordStep] at hst
    rcases hc : s.coordinators[j]? with _ | c
    · simp [hc] at hst
    · obtain ⟨hs, hj, hco⟩ := hI.coord_at hc
      simp only [hc] at hst
      by_cases hcp : c = CoordPc.atClose
      · subst hcp
        rcases hI.coord hs with h1 | h1 | h1
        · rw [hco] at h1
          simp at h1
        · simp only [if_true, h1.2.2.1, Bool.false_eq_true, if_false, Option.some.injEq] at hst
          subst hst
          refine ⟨hs, h1.2.2.2, hI.all_exited h1.2.2.2, h1.2.1, ?_, rfl, rfl⟩
          simp [h1.2.1]
        · rw [hco] at h1
          simp at h1
      · simp [hcp] at hst
  · intro hs
    simp [Manager.Start, State.logf, hs, foldl_workerStart, (hI.fresh hs).2.2.1]

theorem C9_completion_signal_witness :
    stateClosed.m.allWorkersStopped = true ∧ stateClosed.closes = 1 ∧ stateClosed.closes ≤ 1 :=
  ⟨by decide, by decide, (C9_completion_signal stateClosed stateClosed_reachable).1⟩

/-- C10: under a Manager the skip branch is dead. In every reachable state no
`continue` has been executed; a goroutine that has received a tick finds the
flag false, so its CompareAndSwap succeeds and calls fn; every received tick
is either already an invocation or held by a goroutine about to invoke. -/
theorem C10_skip_branch_unreachable (s : State) (h : Reachable s) :
    s.skips = 0 ∧
    s.ticksReceived = s.invocations + s.flows.countP Flow.holdsTick ∧
    (∀ (i : Nat) (f : Flow) (wk : worker), s.flows[i]? = some f → f.pc = FlowPc.atCAS →
      s.heap[f.w]? = some wk → wk.prevOperationInProgress = false) ∧
    (∀ (i : Nat) (f : Flow), s.flows[i]? = some f → f.pc = FlowPc.atCAS → s.crashed = false →
      ∃ s1, step s (Label.cas i) = some s1) ∧
    (∀ (i : Nat) (s1 : State), step s (Label.cas i) = some s1 →
      s1.skips = 0 ∧ s1.invocations = s.invocations + 1 ∧
      ∃ f, s1.flows[i]? = some f ∧ f.pc = FlowPc.inFn) := by
  have hI := Inv_of_Reachable h
  refine ⟨hI.skips_zero, ?_, ?_, ?_, ?_⟩
  · have := hI.ticks
    rw [hI.skips_zero] at this
    simpa using this
  · intro i f wk hf hp hw
    exact hI.flag_false hf hw (by simp [hp]) (by simp [hp])
  · intro i f hf hp hc
    obtain ⟨wk, hw⟩ := hI.heap_at hf
    have hfl := hI.flag_false hf hw (by simp [hp]) (by simp [hp])
    simp [step, hc, flowStep, hf, hp, flowCAS, hw, hfl]
  · intro i s1 hst
    have hsk := (Inv_cas hI i hst).skips_zero
    refine ⟨hsk, ?_⟩
    have hcr := step_crashed hst
    simp only [step, hcr, Bool.false_eq_true, if_false] at hst
    obtain ⟨f, hf, hp, hk⟩ := flowStep_eq_some hst
    unfold flowCAS at hk
    rcases hw : s.heap[f.w]? with _ | wk
    · simp [hw] at hk
    · have hfl := hI.flag_false hf hw (by simp [hp]) (by simp [hp])
      simp only [hw, hfl, Bool.false_eq_true, if_false, Option.some.injEq] at hk
      subst hk
      have hlt : i < s.flows.length := (List.getElem?_eq_some.mp hf).1
      refine ⟨rfl, { f with pc := FlowPc.inFn }, ?_, rfl⟩
      simp [State.setFlow, hlt]

theorem C10_skip_branch_unreachable_witness :
    stateTick.ticksReceived = 1 ∧ stateTick.invocations = 0 ∧ stateTick.skips = 0 :=
  ⟨by decide, by decide, (C10_skip_branch_unreachable stateTick stateTick_reachable).1⟩

end periodically
